import Mathlib

/-!
# SimpleTimer: a shallow embedding of `timer.h` / `timer.cpp`

The scheduler of `namespace timer_service` is modelled as a state machine.

* Every public member function (`schedule`, `stopTimer`, `is_running`,
  `shutDown`) takes `taskProtector` (or touches only atomics), so each of them
  is one atomic transition.
* One turn of the `do … while (!done)` loop of the scheduler thread releases
  `taskProtector` only inside `wait_until`; what precedes the wait merely
  computes the local `till`.  The part after the wait (lines 48–80 of
  `timer.cpp`) runs under the lock and is one atomic transition,
  `loopIteration`, whose input is the clock value read on line 58.
* Clock values are integers (ticks of `high_resolution_clock`, nanoseconds);
  the clock readings handed to the transitions are arbitrary, nothing assumes
  that they increase.  A time and a duration are signed 64-bit tick counts
  (`rep` is `int64_t`); the sums and products the code forms are taken modulo
  `2^64` in `[-2^63, 2^63)`, which is what the compiled arithmetic yields when
  the exact result does not fit (`wrapTicks`).
* `unsigned long` is 64 bits wide and wraps; the counter of `TimePoint::getId`
  is modelled with that wrap-around, and so is the conversion of a delay to
  the signed 64-bit count of `std::chrono::milliseconds`.
* `shutDown` stores to two atomics without taking the lock; it is modelled as
  one transition.
* `std::sort` is specified by its contract only (the result is a permutation
  of the input, ordered by the comparator): every theorem quantifies over all
  functions that meet the contract (`Sorter`).
* A `std::function<void()>` is represented by a number that names the bound
  callable.
* Every `shared_ptr<TimePoint>` in the deque points to an object of its own
  (`make_shared` in `schedule`; the loop pushes back only what it has just
  popped), so the deque is a list of values.
-/

namespace timer_service

/-- Type `HighTimePoint`: a point in time, in ticks of the high resolution clock. -/
abbrev HighTimePoint := Int

/-- Ticks of the clock per millisecond (the clock counts nanoseconds). -/
def ticksPerMs : Int := 1000000

/-- Number of values of an `unsigned long`. -/
def ULONG_RANGE : Nat := 2 ^ 64

/-- The count a `std::chrono::milliseconds` holds when it is constructed from
the `unsigned long` value `ms`: the conversion to the signed 64-bit `rep` keeps
values below `2^63` and maps the others to `ms - 2^64`. -/
def toRep (ms : Nat) : Int :=
  if ms % ULONG_RANGE < ULONG_RANGE / 2 then ((ms % ULONG_RANGE : Nat) : Int)
  else ((ms % ULONG_RANGE : Nat) : Int) - (ULONG_RANGE : Int)

/-- The value a signed 64-bit tick count holds after an addition or a
multiplication whose exact result is `x`: the result modulo `2^64`, taken in
`[-2^63, 2^63)`. -/
def wrapTicks (x : Int) : Int :=
  (x + ((ULONG_RANGE / 2 : Nat) : Int)) % ((ULONG_RANGE : Nat) : Int)
    - ((ULONG_RANGE / 2 : Nat) : Int)

/-- The integer `x` is a value of the signed 64-bit tick count. -/
def fitsTicks (x : Int) : Prop :=
  -((ULONG_RANGE / 2 : Nat) : Int) ≤ x ∧ x < ((ULONG_RANGE / 2 : Nat) : Int)

instance fitsTicks.dec : DecidablePred fitsTicks :=
  fun x => inferInstanceAs (Decidable
    (-((ULONG_RANGE / 2 : Nat) : Int) ≤ x ∧ x < ((ULONG_RANGE / 2 : Nat) : Int)))

/-- The duration `std::chrono::milliseconds(ms)` converted to clock ticks: the
signed 64-bit product of its count and the ticks per millisecond. -/
def milliseconds (ms : Nat) : Int := wrapTicks (toRep ms * ticksPerMs)

/-- The constant `defaultTimedWaitMS`. -/
def defaultTimedWaitMS : Nat := 100

/-- Function `TimePoint::getId`: `static unsigned long id = 0; return ++id;`.
The argument is the current value of the static counter; the result is both
the new value of the counter and the value returned. -/
def getId (id : Nat) : Nat := (id + 1) % ULONG_RANGE

/-- Class `TimePoint` (the mutex is left out). -/
structure TimePoint where
  m_ms : Nat
  m_timeout : HighTimePoint
  m_func : Nat
  m_repeat : Bool
  m_tid : Nat
deriving DecidableEq, Repr

/-- Constructor `TimePoint::TimePoint(function, ms, repeat)`, run when the clock
reads `now` and the static counter of `getId` holds `id`. -/
def TimePoint.create (now : HighTimePoint) (function : Nat) (ms : Nat) (rpt : Bool)
    (id : Nat) : TimePoint :=
  { m_ms := ms
    m_timeout := wrapTicks (now + milliseconds ms)
    m_func := function
    m_repeat := rpt
    m_tid := getId id }

/-- Function `TimePoint::next`: `m_timeout += std::chrono::milliseconds(m_ms)`. -/
def TimePoint.next (t : TimePoint) : TimePoint :=
  { t with m_timeout := wrapTicks (t.m_timeout + milliseconds t.m_ms) }

/-- Type `TimerPair = std::pair<HighTimePoint, std::shared_ptr<TimePoint>>`. -/
structure TimerPair where
  first : HighTimePoint
  second : TimePoint
deriving DecidableEq, Repr

/-- The order both calls of `std::sort` establish: the comparator is
`_1.second->timeout() < _2.second->timeout()`, and a range is sorted by it when
no element is followed by one with a smaller deadline. -/
def TimerPair.le (a b : TimerPair) : Prop := a.second.m_timeout ≤ b.second.m_timeout

instance TimerPair.decLe : DecidableRel TimerPair.le :=
  fun a b => inferInstanceAs (Decidable (a.second.m_timeout ≤ b.second.m_timeout))

/-- The deque is sorted ascending by the deadline of its entries. -/
def SortedByTimeout (q : List TimerPair) : Prop := q.Pairwise TimerPair.le

/-- The contract of `std::sort` with the deadline comparator. -/
structure Sorter where
  sort : List TimerPair → List TimerPair
  perm : ∀ l, List.Perm (sort l) l
  sorted : ∀ l, SortedByTimeout (sort l)

/-- Insertion of one pair into a sorted list, before the first pair whose
deadline is not earlier. -/
def insertByTimeout (p : TimerPair) : List TimerPair → List TimerPair
  | [] => [p]
  | x :: xs => if p.second.m_timeout ≤ x.second.m_timeout then p :: x :: xs
               else x :: insertByTimeout p xs

/-- Insertion sort by deadline (it keeps pairs with equal deadlines in their
order): one function that meets the contract of `std::sort`. -/
def insertionSort : List TimerPair → List TimerPair
  | [] => []
  | x :: xs => insertByTimeout x (insertionSort xs)

/-- Class `timer`, together with the function-local static `id` of
`TimePoint::getId`.  `futureList` holds the callables handed to `std::async`
(the reaper thread, which only shrinks `futureList`, is not modelled). -/
structure timer where
  m_timerMap : List TimerPair
  done : Bool
  notifyNewTimeout : Bool
  taskCleanupStarted : Bool
  futureList : List Nat
  deleteTid : Nat
  id : Nat
deriving DecidableEq, Repr

/-- Constructor `timer::timer()`: the member initialisers, and the static counter at 0. -/
def timer.init : timer :=
  { m_timerMap := []
    done := false
    notifyNewTimeout := false
    taskCleanupStarted := false
    futureList := []
    deleteTid := 0
    id := 0 }

/-- Function `timer::schedule(ms, repeat, f, args...)` called when the clock reads `now`;
returns the new state and the `timerID` handed back to the caller. -/
def schedule (S : Sorter) (now : HighTimePoint) (ms : Nat) (rpt : Bool) (f : Nat)
    (s : timer) : timer × Nat :=
  let ptr := TimePoint.create now f ms rpt s.id
  let timerID := ptr.m_tid
  let pushed := s.m_timerMap ++ [{ first := ptr.m_timeout, second := ptr }]
  let sortedMap := S.sort pushed
  let notify :=
    match sortedMap with
    | [] => s.notifyNewTimeout
    | pair :: _ =>
      if pair.second.m_tid = timerID ∧ sortedMap.length ≠ 1 then true
      else s.notifyNewTimeout
  ({ s with m_timerMap := sortedMap, notifyNewTimeout := notify, id := getId s.id }, timerID)

/-- Function `timer::stopTimer(tid)`: `find_if` the first pair with that id, erase it if
found, and record `tid` in `deleteTid`. -/
def stopTimer (tid : Nat) (s : timer) : timer :=
  { s with
    m_timerMap := s.m_timerMap.eraseP (fun pair => decide (pair.second.m_tid = tid))
    deleteTid := tid }

/-- Function `timer::is_running(tid)`: whether `find_if` finds a pair with that id. -/
def is_running (tid : Nat) (s : timer) : Bool :=
  s.m_timerMap.any (fun pair => decide (pair.second.m_tid = tid))

/-- Function `timer::shutDown()`: the two stores (the join waits for the loop to leave). -/
def shutDown (s : timer) : timer :=
  { s with done := true, taskCleanupStarted := false }

/-- What one turn of the scheduler loop produces. -/
structure Iteration where
  /-- the state the turn leaves -/
  state : timer
  /-- the pair the turn removed with `pop_front`, if it removed one -/
  popped : Option TimerPair
  /-- the entry, as it was popped, whose task the turn handed to `std::async` -/
  fired : Option TimePoint
  /-- the turn left the loop through `break` -/
  exited : Bool
deriving DecidableEq, Repr

/-- The wake-up time `till` computed at the top of a turn (lines 38–42), the
clock reading `now`. -/
def wakeTime (now : HighTimePoint) (s : timer) : HighTimePoint :=
  match s.m_timerMap with
  | [] => wrapTicks (now + milliseconds defaultTimedWaitMS)
  | pair :: _ => pair.first

/-- One turn of the scheduler loop after its wait has returned (lines 48–80 of
`timer.cpp`); `now` is the clock value read on line 58. -/
def loopIteration (S : Sorter) (now : HighTimePoint) (s : timer) : Iteration :=
  let s1 := if s.notifyNewTimeout then { s with notifyNewTimeout := false } else s
  if s1.done then { state := s1, popped := none, fired := none, exited := true }
  else
    match s1.m_timerMap with
    | [] => { state := s1, popped := none, fired := none, exited := false }
    | pair :: rest =>
      if pair.second.m_timeout < now then
        if pair.second.m_tid ≠ s1.deleteTid then
          let map :=
            if pair.second.m_repeat then
              S.sort (rest ++ [{ first := pair.second.next.m_timeout, second := pair.second.next }])
            else rest
          { state := { s1 with
                       m_timerMap := map
                       futureList := s1.futureList ++ [pair.second.m_func]
                       taskCleanupStarted := true }
            popped := some pair
            fired := some pair.second
            exited := false }
        else
          { state := { s1 with m_timerMap := rest }
            popped := some pair
            fired := none
            exited := false }
      else { state := s1, popped := none, fired := none, exited := false }

/-- The calls that drive the scheduler. -/
inductive Op where
  | schedule (now : HighTimePoint) (ms : Nat) (rpt : Bool) (f : Nat)
  | stopTimer (tid : Nat)
  | is_running (tid : Nat)
  | loopIteration (now : HighTimePoint)
  | shutDown
deriving DecidableEq, Repr

/-- What a call lets the outside observe. -/
inductive Output where
  /-- the id returned by `schedule` -/
  | timerID (id : Nat)
  /-- the answer of `is_running` -/
  | running (b : Bool)
  /-- the entry whose task a loop turn dispatched -/
  | fired (entry : TimePoint)
  /-- nothing -/
  | silent
deriving DecidableEq, Repr

/-- The state after one call. -/
def step (S : Sorter) (s : timer) : Op → timer
  | Op.schedule now ms rpt f => (schedule S now ms rpt f s).1
  | Op.stopTimer tid => stopTimer tid s
  | Op.is_running _ => s
  | Op.loopIteration now => (loopIteration S now s).state
  | Op.shutDown => shutDown s

/-- What one call outputs. -/
def output (S : Sorter) (s : timer) : Op → Output
  | Op.schedule now ms rpt f => Output.timerID (schedule S now ms rpt f s).2
  | Op.stopTimer _ => Output.silent
  | Op.is_running tid => Output.running (is_running tid s)
  | Op.loopIteration now =>
    match (loopIteration S now s).fired with
    | some entry => Output.fired entry
    | none => Output.silent
  | Op.shutDown => Output.silent

/-- The state after a sequence of calls. -/
def exec (S : Sorter) (s : timer) : List Op → timer
  | [] => s
  | op :: ops => exec S (step S s op) ops

/-- The outputs of a sequence of calls, one per call, in order. -/
def outputs (S : Sorter) (s : timer) : List Op → List Output
  | [] => []
  | op :: ops => output S s op :: outputs S (step S s op) ops

/-- The ids of the queued entries, in queue order. -/
def queuedIds (s : timer) : List Nat := s.m_timerMap.map (fun pair => pair.second.m_tid)

/-- Number of `schedule` calls in a sequence of calls. -/
def scheduleCalls : List Op → Nat
  | [] => 0
  | Op.schedule _ _ _ _ :: ops => scheduleCalls ops + 1
  | _ :: ops => scheduleCalls ops

/-- The ids returned by `schedule`, in call order. -/
def returnedIds : List Output → List Nat
  | [] => []
  | Output.timerID id :: os => id :: returnedIds os
  | _ :: os => returnedIds os

/-- The entries whose task was dispatched, in order. -/
def firedEntries : List Output → List TimePoint
  | [] => []
  | Output.fired entry :: os => entry :: firedEntries os
  | _ :: os => firedEntries os

/-- Number of dispatches of entries with the id `id`. -/
def firedCount (id : Nat) (os : List Output) : Nat :=
  (firedEntries os).countP (fun e => decide (e.m_tid = id))

/-- The pair a repeating entry is queued as once it has fired `k` times: it was
created at clock `t0` with the delay `ms`, the callable `f` and the id `id`. -/
def armed (t0 : HighTimePoint) (ms f id k : Nat) : TimerPair :=
  { first := wrapTicks (t0 + ((k : Int) + 1) * milliseconds ms)
    second := { m_ms := ms
                m_timeout := wrapTicks (t0 + ((k : Int) + 1) * milliseconds ms)
                m_func := f
                m_repeat := true
                m_tid := id } }

/-- Along the calls `ops` made from the state `s`, the entries `fired` having
been dispatched before: every pair that is in the deque after a call was in it
before the call, or has a deadline that is not earlier than the deadline of any
entry dispatched so far (that call included).  So no `schedule` pushes, and no
loop turn pushes back after `next`, a deadline earlier than a dispatched one. -/
def lateEntries (S : Sorter) (s : timer) (fired : List TimePoint) : List Op → Bool
  | [] => true
  | op :: ops =>
    decide (∀ q ∈ (step S s op).m_timerMap, q ∈ s.m_timerMap ∨
        ∀ e ∈ fired ++ firedEntries [output S s op], e.m_timeout ≤ q.second.m_timeout) &&
      lateEntries S (step S s op) (fired ++ firedEntries [output S s op]) ops

/-- Every queued id is non-zero, at most the id counter, and queued only once:
the ids in the deque are distinct ids that `getId` has handed out since the
counter was 0. -/
def IdsFresh (s : timer) : Prop :=
  (queuedIds s).Nodup ∧ ∀ i ∈ queuedIds s, 0 < i ∧ i ≤ s.id

/-- Two states that differ at most in the cancellation marker `deleteTid`. -/
def SameButMarker (s1 s2 : timer) : Prop :=
  s2 = { s1 with deleteTid := s2.deleteTid }

/-- Two states that are equal, or differ only in their cancellation markers
while neither marker is the id of a queued entry or an id still to be issued. -/
def MarkerRel (s1 s2 : timer) : Prop :=
  s1 = s2 ∨
  (SameButMarker s1 s2 ∧ s1.deleteTid ∉ queuedIds s1 ∧ s1.deleteTid ≤ s1.id ∧
    s2.deleteTid ∉ queuedIds s1 ∧ s2.deleteTid ≤ s1.id)

/-- A trace that exhausts the id counter: `n` rounds of scheduling a one-shot
timer (clock 1, delay 0) and stopping it at once; `c` is the value of the id
counter before the first round. -/
def churn (c : Nat) : Nat → List Op
  | 0 => []
  | n + 1 => Op.schedule 1 0 false 0 :: Op.stopTimer (getId c) :: churn (getId c) n

/-- Schedule one timer (clock 0, delay 0, callable 7), which gets id 1 and
stays queued, then go through `2^64 - 1` rounds of `churn`: the ids
`2, …, 2^64 - 1, 0` are handed out and the counter is back at 0. -/
def wrapAround (rpt : Bool) : List Op :=
  Op.schedule 0 0 rpt 7 :: churn 1 (ULONG_RANGE - 1)

/-- The state in which only the timer scheduled first by `wrapAround` is queued,
the id counter holds `c` and the cancellation marker `d`. -/
def held (rpt : Bool) (c d : Nat) : timer :=
  { m_timerMap :=
      [{ first := 0
         second := { m_ms := 0, m_timeout := 0, m_func := 7, m_repeat := rpt, m_tid := 1 } }]
    done := false
    notifyNewTimeout := false
    taskCleanupStarted := false
    futureList := []
    deleteTid := d
    id := c }

/-- The key stored in every queued pair is the deadline of the entry it points
to. -/
def KeysMatch (q : List TimerPair) : Prop := ∀ p ∈ q, p.first = p.second.m_timeout

/-- Whether every `stopTimer` call of a sequence of calls passes an id that an
earlier `schedule` call has returned; `returned` holds the ids returned before
the sequence starts. -/
def stopsOnlyReturned (S : Sorter) (s : timer) (returned : List Nat) : List Op → Bool
  | [] => true
  | Op.stopTimer tid :: ops =>
    decide (tid ∈ returned) && stopsOnlyReturned S (stopTimer tid s) returned ops
  | Op.schedule now ms rpt f :: ops =>
    stopsOnlyReturned S (schedule S now ms rpt f s).1
      (returned ++ [(schedule S now ms rpt f s).2]) ops
  | Op.is_running _ :: ops => stopsOnlyReturned S s returned ops
  | Op.loopIteration now :: ops =>
    stopsOnlyReturned S (loopIteration S now s).state returned ops
  | Op.shutDown :: ops => stopsOnlyReturned S (shutDown s) returned ops

theorem insertByTimeout_perm (p : TimerPair) (l : List TimerPair) :
    List.Perm (insertByTimeout p l) (p :: l) := by
  induction l with
  | nil => simp [insertByTimeout]
  | cons x xs ih =>
    unfold insertByTimeout
    split
    · exact List.Perm.refl _
    · exact (List.Perm.cons x ih).trans (List.Perm.swap p x xs)

theorem insertionSort_perm (l : List TimerPair) : List.Perm (insertionSort l) l := by
  induction l with
  | nil => simp [insertionSort]
  | cons x xs ih =>
    unfold insertionSort
    exact (insertByTimeout_perm x _).trans (List.Perm.cons x ih)

theorem insertByTimeout_sorted (p : TimerPair) (l : List TimerPair)
    (h : SortedByTimeout l) : SortedByTimeout (insertByTimeout p l) := by
  induction l with
  | nil => simp [insertByTimeout, SortedByTimeout]
  | cons x xs ih =>
    unfold SortedByTimeout at h ih ⊢
    rw [List.pairwise_cons] at h
    unfold insertByTimeout
    split
    · rename_i hle
      refine List.pairwise_cons.2 ⟨?_, List.pairwise_cons.2 h⟩
      intro y hy
      rcases List.mem_cons.1 hy with rfl | hy
      · exact hle
      · exact le_trans hle (h.1 y hy)
    · rename_i hnle
      refine List.pairwise_cons.2 ⟨?_, ih h.2⟩
      intro y hy
      rcases List.mem_cons.1 ((insertByTimeout_perm p xs).subset hy) with rfl | hy
      · exact le_of_lt (not_le.1 hnle)
      · exact h.1 y hy

theorem insertionSort_sorted (l : List TimerPair) : SortedByTimeout (insertionSort l) := by
  induction l with
  | nil => simp [insertionSort, SortedByTimeout]
  | cons x xs ih =>
    unfold insertionSort
    exact insertByTimeout_sorted x _ ih

/-- Insertion sort meets the contract of `std::sort`. -/
def insertionSorter : Sorter :=
  { sort := insertionSort
    perm := insertionSort_perm
    sorted := insertionSort_sorted }

/-! ## Signed 64-bit tick counts -/

theorem wrapTicks_eq (x : Int) :
    wrapTicks x = (x + 9223372036854775808) % 18446744073709551616 - 9223372036854775808 := by
  unfold wrapTicks ULONG_RANGE
  norm_num

theorem fitsTicks_iff (x : Int) :
    fitsTicks x ↔ -9223372036854775808 ≤ x ∧ x < 9223372036854775808 := by
  unfold fitsTicks ULONG_RANGE
  norm_num

/-- A signed 64-bit operation always yields a value of the tick count. -/
theorem wrapTicks_fits (x : Int) : fitsTicks (wrapTicks x) := by
  rw [fitsTicks_iff, wrapTicks_eq]
  omega

/-- An exact result that fits is the result of the signed 64-bit operation. -/
theorem wrapTicks_of_fits (x : Int) (h : fitsTicks x) : wrapTicks x = x := by
  rw [fitsTicks_iff] at h
  rw [wrapTicks_eq]
  omega

theorem wrapTicks_wrapTicks_add (a b : Int) :
    wrapTicks (wrapTicks a + b) = wrapTicks (a + b) := by
  simp only [wrapTicks_eq]
  omega

theorem milliseconds_zero : milliseconds 0 = 0 := by decide

theorem wrapTicks_zero : wrapTicks 0 = 0 := by decide

theorem wrapTicks_one : wrapTicks 1 = 1 := by decide

/-- A delay whose tick count fits converts to that many ticks. -/
theorem milliseconds_of_fits (ms : Nat) (h : fitsTicks ((ms : Int) * ticksPerMs)) :
    milliseconds ms = (ms : Int) * ticksPerMs := by
  have h2 : toRep ms = (ms : Int) := by
    rw [fitsTicks_iff] at h
    unfold ticksPerMs at h
    unfold toRep ULONG_RANGE
    norm_num
    omega
  unfold milliseconds
  rw [h2]
  exact wrapTicks_of_fits _ h

/-! ## Traces -/

theorem exec_append (S : Sorter) (s : timer) (a b : List Op) :
    exec S s (a ++ b) = exec S (exec S s a) b := by
  induction a generalizing s with
  | nil => rfl
  | cons op ops ih => exact ih (step S s op)

theorem outputs_append (S : Sorter) (s : timer) (a b : List Op) :
    outputs S s (a ++ b) = outputs S s a ++ outputs S (exec S s a) b := by
  induction a generalizing s with
  | nil => rfl
  | cons op ops ih => simp [outputs, exec, ih]

theorem scheduleCalls_append (a b : List Op) :
    scheduleCalls (a ++ b) = scheduleCalls a + scheduleCalls b := by
  induction a with
  | nil => simp [scheduleCalls]
  | cons op ops ih =>
    cases op with
    | schedule now ms rpt f => simp [scheduleCalls, ih]; omega
    | stopTimer tid => simpa [scheduleCalls] using ih
    | is_running tid => simpa [scheduleCalls] using ih
    | loopIteration now => simpa [scheduleCalls] using ih
    | shutDown => simpa [scheduleCalls] using ih

theorem returnedIds_append (a b : List Output) :
    returnedIds (a ++ b) = returnedIds a ++ returnedIds b := by
  induction a with
  | nil => rfl
  | cons o os ih => cases o <;> simp [returnedIds, ih]

theorem firedEntries_append (a b : List Output) :
    firedEntries (a ++ b) = firedEntries a ++ firedEntries b := by
  induction a with
  | nil => rfl
  | cons o os ih => cases o <;> simp [firedEntries, ih]

/-! ## The transitions, field by field -/

theorem schedule_map (S : Sorter) (now : HighTimePoint) (ms : Nat) (rpt : Bool) (f : Nat)
    (s : timer) :
    (schedule S now ms rpt f s).1.m_timerMap =
      S.sort (s.m_timerMap ++
        [{ first := (TimePoint.create now f ms rpt s.id).m_timeout, second :=
            TimePoint.create now f ms rpt s.id }]) := rfl

theorem schedule_fields (S : Sorter) (now : HighTimePoint) (ms : Nat) (rpt : Bool) (f : Nat)
    (s : timer) :
    (schedule S now ms rpt f s).1.id = getId s.id ∧
    (schedule S now ms rpt f s).2 = getId s.id ∧
    (schedule S now ms rpt f s).1.deleteTid = s.deleteTid ∧
    (schedule S now ms rpt f s).1.done = s.done ∧
    (schedule S now ms rpt f s).1.futureList = s.futureList ∧
    (schedule S now ms rpt f s).1.taskCleanupStarted = s.taskCleanupStarted :=
  ⟨rfl, rfl, rfl, rfl, rfl, rfl⟩

/-- The state a loop turn starts from once the new-deadline flag is cleared. -/
theorem loopIteration_flag (s : timer) :
    (if s.notifyNewTimeout then { s with notifyNewTimeout := false } else s) =
      { s with notifyNewTimeout := false } := by
  cases s with
  | mk m d n t fl dt i => cases n <;> rfl

/-- The four ways a loop turn can go. -/
theorem loopIteration_cases (S : Sorter) (now : HighTimePoint) (s : timer) :
    (loopIteration S now s =
        { state := { s with notifyNewTimeout := false }, popped := none, fired := none,
          exited := s.done } ∧
      (s.done = true ∨ s.m_timerMap = [] ∨
        ∃ pair rest, s.m_timerMap = pair :: rest ∧ ¬ pair.second.m_timeout < now)) ∨
    (∃ pair rest, s.m_timerMap = pair :: rest ∧ s.done = false ∧
      pair.second.m_timeout < now ∧ pair.second.m_tid = s.deleteTid ∧
      loopIteration S now s =
        { state := { s with notifyNewTimeout := false, m_timerMap := rest }
          popped := some pair, fired := none, exited := false }) ∨
    (∃ pair rest, s.m_timerMap = pair :: rest ∧ s.done = false ∧
      pair.second.m_timeout < now ∧ pair.second.m_tid ≠ s.deleteTid ∧
      pair.second.m_repeat = false ∧
      loopIteration S now s =
        { state := { s with notifyNewTimeout := false, m_timerMap := rest,
                            futureList := s.futureList ++ [pair.second.m_func],
                            taskCleanupStarted := true }
          popped := some pair, fired := some pair.second, exited := false }) ∨
    (∃ pair rest, s.m_timerMap = pair :: rest ∧ s.done = false ∧
      pair.second.m_timeout < now ∧ pair.second.m_tid ≠ s.deleteTid ∧
      pair.second.m_repeat = true ∧
      loopIteration S now s =
        { state := { s with notifyNewTimeout := false,
                            m_timerMap := S.sort (rest ++
                              [{ first := pair.second.next.m_timeout,
                                 second := pair.second.next }]),
                            futureList := s.futureList ++ [pair.second.m_func],
                            taskCleanupStarted := true }
          popped := some pair, fired := some pair.second, exited := false }) := by
  unfold loopIteration
  rw [loopIteration_flag]
  cases hd : s.done with
  | true => left; simp [hd]
  | false =>
    cases hm : s.m_timerMap with
    | nil => left; simp [hd, hm]
    | cons pair rest =>
      by_cases hdue : pair.second.m_timeout < now
      · by_cases hdel : pair.second.m_tid = s.deleteTid
        · right; left
          exact ⟨pair, rest, rfl, rfl, hdue, hdel, by simp [hd, hm, hdue, hdel]⟩
        · cases hr : pair.second.m_repeat with
          | false =>
            right; right; left
            exact ⟨pair, rest, rfl, rfl, hdue, hdel, hr, by simp [hd, hm, hdue, hdel, hr]⟩
          | true =>
            right; right; right
            exact ⟨pair, rest, rfl, rfl, hdue, hdel, hr, by simp [hd, hm, hdue, hdel, hr]⟩
      · left
        exact ⟨by simp [hd, hm, hdue], Or.inr (Or.inr ⟨pair, rest, rfl, hdue⟩)⟩

/-! ## The deque stays sorted -/

theorem sorted_head_le {pair : TimerPair} {rest : List TimerPair}
    (h : SortedByTimeout (pair :: rest)) :
    ∀ p ∈ pair :: rest, pair.second.m_timeout ≤ p.second.m_timeout := by
  intro p hp
  rcases List.mem_cons.1 hp with rfl | hp
  · exact le_refl _
  · exact (List.pairwise_cons.1 h).1 p hp

theorem sorted_tail {pair : TimerPair} {rest : List TimerPair}
    (h : SortedByTimeout (pair :: rest)) : SortedByTimeout rest :=
  (List.pairwise_cons.1 h).2

theorem stopTimer_sorted (tid : Nat) (s : timer) (h : SortedByTimeout s.m_timerMap) :
    SortedByTimeout (stopTimer tid s).m_timerMap :=
  List.Pairwise.sublist (List.eraseP_sublist _) h

theorem loopIteration_sorted (S : Sorter) (now : HighTimePoint) (s : timer)
    (h : SortedByTimeout s.m_timerMap) :
    SortedByTimeout (loopIteration S now s).state.m_timerMap := by
  rcases loopIteration_cases S now s with ⟨e, _⟩ | ⟨pair, rest, hm, _, _, _, e⟩ |
    ⟨pair, rest, hm, _, _, _, _, e⟩ | ⟨pair, rest, hm, _, _, _, _, e⟩
  · rw [e]; exact h
  · rw [e]; rw [hm] at h; exact sorted_tail h
  · rw [e]; rw [hm] at h; exact sorted_tail h
  · rw [e]; exact S.sorted _

theorem step_sorted (S : Sorter) (s : timer) (op : Op) (h : SortedByTimeout s.m_timerMap) :
    SortedByTimeout (step S s op).m_timerMap := by
  cases op with
  | schedule now ms rpt f => exact S.sorted _
  | stopTimer tid => exact stopTimer_sorted tid s h
  | is_running tid => exact h
  | loopIteration now => exact loopIteration_sorted S now s h
  | shutDown => exact h

theorem exec_sorted (S : Sorter) (s : timer) (ops : List Op) (h : SortedByTimeout s.m_timerMap) :
    SortedByTimeout (exec S s ops).m_timerMap := by
  induction ops generalizing s with
  | nil => exact h
  | cons op ops ih => exact ih (step S s op) (step_sorted S s op h)

theorem init_sorted : SortedByTimeout timer.init.m_timerMap := List.Pairwise.nil

/-! ## Earliest deadline first -/

theorem popped_is_front (S : Sorter) (now : HighTimePoint) (s : timer) (pair : TimerPair)
    (h : (loopIteration S now s).popped = some pair) :
    ∃ rest, s.m_timerMap = pair :: rest ∧ pair.second.m_timeout < now ∧ s.done = false := by
  rcases loopIteration_cases S now s with ⟨e, _⟩ | ⟨p, rest, hm, hd, hdue, _, e⟩ |
    ⟨p, rest, hm, hd, hdue, _, _, e⟩ | ⟨p, rest, hm, hd, hdue, _, _, e⟩
  · rw [e] at h; exact absurd h (by simp)
  all_goals
    rw [e] at h
    have hp : p = pair := by simpa using h
    subst hp
    exact ⟨rest, hm, hdue, hd⟩

theorem fired_is_popped (S : Sorter) (now : HighTimePoint) (s : timer) (entry : TimePoint)
    (h : (loopIteration S now s).fired = some entry) :
    ∃ pair, (loopIteration S now s).popped = some pair ∧ pair.second = entry ∧
      pair.second.m_tid ≠ s.deleteTid := by
  rcases loopIteration_cases S now s with ⟨e, _⟩ | ⟨p, rest, hm, hd, hdue, _, e⟩ |
    ⟨p, rest, hm, hd, hdue, hdel, _, e⟩ | ⟨p, rest, hm, hd, hdue, hdel, _, e⟩
  · rw [e] at h; exact absurd h (by simp)
  · rw [e] at h; exact absurd h (by simp)
  all_goals
    rw [e] at h ⊢
    have hp : p.second = entry := by simpa using h
    exact ⟨p, rfl, hp, hdel⟩

theorem output_fired_front (S : Sorter) (s : timer) (op : Op) (entry : TimePoint)
    (h : output S s op = Output.fired entry) :
    ∃ pair rest, s.m_timerMap = pair :: rest ∧ pair.second = entry ∧
      pair.second.m_tid ≠ s.deleteTid := by
  cases op with
  | schedule now ms rpt f => simp [output] at h
  | stopTimer tid => simp [output] at h
  | is_running tid => simp [output] at h
  | shutDown => simp [output] at h
  | loopIteration now =>
    simp only [output] at h
    cases hf : (loopIteration S now s).fired with
    | none => rw [hf] at h; simp at h
    | some e =>
      rw [hf] at h
      have he : e = entry := by simpa using h
      subst he
      obtain ⟨pair, hp, hpe, hdel⟩ := fired_is_popped S now s e hf
      obtain ⟨rest, hm, _, _⟩ := popped_is_front S now s pair hp
      exact ⟨pair, rest, hm, hpe, hdel⟩

theorem fired_ascending (S : Sorter) (s : timer) (fired : List TimePoint) (later : List Op)
    (hs : SortedByTimeout s.m_timerMap)
    (hinv : ∀ q ∈ s.m_timerMap, ∀ e ∈ fired, e.m_timeout ≤ q.second.m_timeout)
    (hl : lateEntries S s fired later = true) :
    (firedEntries (outputs S s later)).Pairwise (fun a b => a.m_timeout ≤ b.m_timeout) ∧
    ∀ e ∈ fired, ∀ e2 ∈ firedEntries (outputs S s later), e.m_timeout ≤ e2.m_timeout := by
  induction later generalizing s fired with
  | nil => simp [outputs, firedEntries]
  | cons op ops ih =>
    simp only [lateEntries, Bool.and_eq_true, decide_eq_true_eq] at hl
    obtain ⟨hc, hl2⟩ := hl
    have hfront : ∀ entry, output S s op = Output.fired entry →
        ∀ q ∈ s.m_timerMap, entry.m_timeout ≤ q.second.m_timeout := by
      intro entry ho q hq
      obtain ⟨pair, rest, hm, hpe, _⟩ := output_fired_front S s op entry ho
      rw [hm] at hs hq
      rw [← hpe]
      exact sorted_head_le hs q hq
    have hinv2 : ∀ q ∈ (step S s op).m_timerMap,
        ∀ e ∈ fired ++ firedEntries [output S s op], e.m_timeout ≤ q.second.m_timeout := by
      intro q hq e he
      rcases hc q hq with hold | hnew
      · rcases List.mem_append.1 he with he | he
        · exact hinv q hold e he
        · cases ho : output S s op with
          | fired entry =>
            rw [ho] at he
            have hee : e = entry := by simpa [firedEntries] using he
            rw [hee]
            exact hfront entry ho q hold
          | timerID i => rw [ho] at he; simp [firedEntries] at he
          | running b => rw [ho] at he; simp [firedEntries] at he
          | silent => rw [ho] at he; simp [firedEntries] at he
      · exact hnew e he
    obtain ⟨ihp, ihb⟩ := ih (step S s op) (fired ++ firedEntries [output S s op])
      (step_sorted S s op hs) hinv2 hl2
    have hb : ∀ e ∈ fired, ∀ e2 ∈ firedEntries (outputs S (step S s op) ops),
        e.m_timeout ≤ e2.m_timeout :=
      fun e he e2 he2 => ihb e (List.mem_append_left _ he) e2 he2
    cases ho : output S s op with
    | fired entry =>
      obtain ⟨pair, rest, hm, hpe, _⟩ := output_fired_front S s op entry ho
      simp only [outputs, ho, firedEntries]
      refine ⟨List.pairwise_cons.2 ⟨?_, ihp⟩, ?_⟩
      · intro e2 he2
        exact ihb entry (by rw [ho]; simp [firedEntries]) e2 he2
      · intro e he e2 he2
        rcases List.mem_cons.1 he2 with rfl | he2
        · rw [← hpe]
          exact hinv pair (by rw [hm]; exact List.mem_cons_self _ _) e he
        · exact hb e he e2 he2
    | timerID i => simp only [outputs, ho, firedEntries]; exact ⟨ihp, hb⟩
    | running b => simp only [outputs, ho, firedEntries]; exact ⟨ihp, hb⟩
    | silent => simp only [outputs, ho, firedEntries]; exact ⟨ihp, hb⟩

/-! ## The id counter -/

theorem getId_of_lt {id : Nat} (h : id + 1 < ULONG_RANGE) : getId id = id + 1 :=
  Nat.mod_eq_of_lt h

theorem getId_ne_one {c : Nat} (h1 : 1 ≤ c) (h2 : c + 1 ≤ ULONG_RANGE) : getId c ≠ 1 := by
  unfold getId ULONG_RANGE at *
  omega

theorem exec_cons (S : Sorter) (s : timer) (op : Op) (ops : List Op) :
    exec S s (op :: ops) = exec S (step S s op) ops := rfl

theorem outputs_cons (S : Sorter) (s : timer) (op : Op) (ops : List Op) :
    outputs S s (op :: ops) = output S s op :: outputs S (step S s op) ops := rfl

/-- One round of `churn` leaves the held timer alone and advances the counter. -/
theorem churn_round (rpt : Bool) (c d : Nat) (h1 : 1 ≤ c) (h2 : c + 1 ≤ ULONG_RANGE) :
    step insertionSorter (step insertionSorter (held rpt c d) (Op.schedule 1 0 false 0))
      (Op.stopTimer (getId c)) = held rpt (getId c) (getId c) := by
  have hne := getId_ne_one h1 h2
  have hne2 : ¬ (1 = getId c) := fun h => hne h.symm
  simp [step, schedule, stopTimer, held, insertionSorter, insertionSort, insertByTimeout,
    TimePoint.create, milliseconds_zero, wrapTicks_zero, wrapTicks_one, hne2, List.eraseP]

theorem exec_churn (rpt : Bool) (n : Nat) : ∀ c d : Nat, 1 ≤ c → c + (n + 1) ≤ ULONG_RANGE →
    exec insertionSorter (held rpt c d) (churn c (n + 1)) =
      held rpt ((c + (n + 1)) % ULONG_RANGE) ((c + (n + 1)) % ULONG_RANGE) := by
  induction n with
  | zero =>
    intro c d h1 h2
    show step insertionSorter (step insertionSorter (held rpt c d) (Op.schedule 1 0 false 0))
      (Op.stopTimer (getId c)) = _
    rw [churn_round rpt c d h1 h2]
    rfl
  | succ n ih =>
    intro c d h1 h2
    show exec insertionSorter (step insertionSorter (step insertionSorter (held rpt c d)
      (Op.schedule 1 0 false 0)) (Op.stopTimer (getId c))) (churn (getId c) (n + 1)) = _
    rw [churn_round rpt c d h1 (by omega)]
    have hc : getId c = c + 1 := getId_of_lt (by omega)
    rw [hc, ih (c + 1) (c + 1) (by omega) (by omega)]
    have : c + 1 + (n + 1) = c + (n + 1 + 1) := by omega
    rw [this]

/-- After `wrapAround` the first timer is still queued with id 1 and the id
counter is 0 again, so the next `schedule` hands out id 1 a second time. -/
theorem exec_wrapAround (rpt : Bool) :
    exec insertionSorter timer.init (wrapAround rpt) = held rpt 0 0 := by
  have h0 : step insertionSorter timer.init (Op.schedule 0 0 rpt 7) = held rpt 1 0 := by
    simp [step, schedule, timer.init, held, insertionSorter, insertionSort, insertByTimeout,
      TimePoint.create, milliseconds_zero, wrapTicks_zero, wrapTicks_one, getId, ULONG_RANGE]
  have hn : ULONG_RANGE - 1 = (ULONG_RANGE - 2) + 1 := by decide
  have hm : (1 + (ULONG_RANGE - 2 + 1)) % ULONG_RANGE = 0 := by decide
  have hb : 1 + (ULONG_RANGE - 2 + 1) ≤ ULONG_RANGE := by decide
  unfold wrapAround
  rw [exec_cons, h0, hn, exec_churn rpt (ULONG_RANGE - 2) 1 0 (le_refl 1) hb, hm]

theorem returnedIds_timerID (i : Nat) (os : List Output) :
    returnedIds (Output.timerID i :: os) = i :: returnedIds os := rfl

theorem wrapAround_first_id (rpt : Bool) (ops : List Op) :
    1 ∈ returnedIds (outputs insertionSorter timer.init (wrapAround rpt ++ ops)) := by
  unfold wrapAround
  rw [List.cons_append, outputs_cons]
  have h : output insertionSorter timer.init (Op.schedule 0 0 rpt 7) = Output.timerID 1 := by
    simp [output, schedule, timer.init, TimePoint.create, getId, ULONG_RANGE]
  rw [h, returnedIds_timerID]
  exact List.mem_cons_self _ _

/-! ## Queued ids -/

theorem queuedIds_schedule (S : Sorter) (now : HighTimePoint) (ms : Nat) (rpt : Bool) (f : Nat)
    (s : timer) :
    List.Perm (queuedIds (schedule S now ms rpt f s).1) (queuedIds s ++ [getId s.id]) := by
  unfold queuedIds
  rw [schedule_map]
  have h := (S.perm (s.m_timerMap ++
    [{ first := (TimePoint.create now f ms rpt s.id).m_timeout, second :=
            TimePoint.create now f ms rpt s.id }])).map
    (fun pair : TimerPair => pair.second.m_tid)
  simpa [TimePoint.create] using h

theorem eraseP_map_tid (tid : Nat) (l : List TimerPair) :
    (l.eraseP (fun pair => decide (pair.second.m_tid = tid))).map (fun pair => pair.second.m_tid)
      = (l.map (fun pair => pair.second.m_tid)).erase tid := by
  induction l with
  | nil => rfl
  | cons x xs ih =>
    by_cases h : x.second.m_tid = tid
    · simp [List.eraseP_cons, h]
    · have h2 : ¬ (x.second.m_tid == tid) = true := by simpa using h
      simp [List.eraseP_cons, h, List.erase_cons, h2, ih]

theorem queuedIds_stopTimer (tid : Nat) (s : timer) :
    queuedIds (stopTimer tid s) = (queuedIds s).erase tid :=
  eraseP_map_tid tid s.m_timerMap

/-- A loop turn leaves the queued ids as they are, drops the first, or moves
the first somewhere else. -/
theorem queuedIds_loopIteration (S : Sorter) (now : HighTimePoint) (s : timer) :
    queuedIds (loopIteration S now s).state = queuedIds s ∨
    (∃ i, queuedIds s = i :: queuedIds (loopIteration S now s).state) ∨
    List.Perm (queuedIds (loopIteration S now s).state) (queuedIds s) := by
  rcases loopIteration_cases S now s with ⟨e, _⟩ | ⟨pair, rest, hm, _, _, _, e⟩ |
    ⟨pair, rest, hm, _, _, _, _, e⟩ | ⟨pair, rest, hm, _, _, _, _, e⟩
  · left; rw [e]; rfl
  · right; left; rw [e]; exact ⟨pair.second.m_tid, by simp [queuedIds, hm]⟩
  · right; left; rw [e]; exact ⟨pair.second.m_tid, by simp [queuedIds, hm]⟩
  · right; right; rw [e]
    have h := (S.perm (rest ++
      [{ first := pair.second.next.m_timeout, second := pair.second.next }])).map
      (fun pair : TimerPair => pair.second.m_tid)
    have h2 : List.Perm (List.map (fun pair : TimerPair => pair.second.m_tid) rest ++
        [pair.second.m_tid]) (pair.second.m_tid :: List.map (fun pair => pair.second.m_tid) rest) :=
      List.perm_append_singleton _ _
    simp only [queuedIds, hm, List.map_cons]
    refine List.Perm.trans ?_ h2
    simpa [TimePoint.next] using h

theorem loopIteration_fields (S : Sorter) (now : HighTimePoint) (s : timer) :
    (loopIteration S now s).state.id = s.id ∧
    (loopIteration S now s).state.deleteTid = s.deleteTid ∧
    (loopIteration S now s).state.done = s.done := by
  rcases loopIteration_cases S now s with ⟨e, _⟩ | ⟨pair, rest, hm, _, _, _, e⟩ |
    ⟨pair, rest, hm, _, _, _, _, e⟩ | ⟨pair, rest, hm, _, _, _, _, e⟩ <;>
  · rw [e]; exact ⟨rfl, rfl, rfl⟩

theorem queuedIds_loopIteration_subset (S : Sorter) (now : HighTimePoint) (s : timer) :
    queuedIds (loopIteration S now s).state ⊆ queuedIds s := by
  rcases queuedIds_loopIteration S now s with h | ⟨i, h⟩ | h
  · rw [h]; exact List.Subset.refl _
  · rw [h]; exact List.subset_cons_self _ _
  · exact h.subset

theorem queuedIds_loopIteration_nodup (S : Sorter) (now : HighTimePoint) (s : timer)
    (hn : (queuedIds s).Nodup) : (queuedIds (loopIteration S now s).state).Nodup := by
  rcases queuedIds_loopIteration S now s with h | ⟨i, h⟩ | h
  · rw [h]; exact hn
  · rw [h] at hn; exact (List.nodup_cons.1 hn).2
  · exact h.nodup_iff.2 hn

theorem scheduleCalls_cons (op : Op) (ops : List Op) :
    scheduleCalls (op :: ops) = scheduleCalls [op] + scheduleCalls ops := by
  rw [← scheduleCalls_append]; rfl

theorem scheduleCalls_schedule (now : HighTimePoint) (ms : Nat) (rpt : Bool) (f : Nat) :
    scheduleCalls [Op.schedule now ms rpt f] = 1 := rfl

theorem step_id (S : Sorter) (s : timer) (op : Op)
    (hb : s.id + scheduleCalls [op] < ULONG_RANGE) :
    (step S s op).id = s.id + scheduleCalls [op] := by
  cases op with
  | schedule now ms rpt f =>
    rw [scheduleCalls_schedule] at hb ⊢
    exact getId_of_lt hb
  | stopTimer tid => rfl
  | is_running tid => rfl
  | loopIteration now => exact (loopIteration_fields S now s).1
  | shutDown => rfl

theorem step_idsFresh (S : Sorter) (s : timer) (op : Op) (h : IdsFresh s)
    (hb : s.id + scheduleCalls [op] < ULONG_RANGE) : IdsFresh (step S s op) := by
  obtain ⟨hn, hr⟩ := h
  cases op with
  | schedule now ms rpt f =>
    rw [scheduleCalls_schedule] at hb
    have hp := queuedIds_schedule S now ms rpt f s
    have hid : getId s.id = s.id + 1 := getId_of_lt hb
    have hp2 : List.Perm (queuedIds (schedule S now ms rpt f s).1) ((s.id + 1) :: queuedIds s) := by
      rw [hid] at hp
      exact hp.trans (List.perm_append_singleton _ _)
    refine ⟨hp2.nodup_iff.2 (List.nodup_cons.2 ⟨?_, hn⟩), ?_⟩
    · intro hmem
      have := (hr _ hmem).2
      omega
    · intro i hi
      have hi2 := hp2.subset hi
      have hid2 : (schedule S now ms rpt f s).1.id = s.id + 1 := hid
      show 0 < i ∧ i ≤ (schedule S now ms rpt f s).1.id
      rw [hid2]
      rcases List.mem_cons.1 hi2 with rfl | hi3
      · omega
      · have := hr i hi3
        omega
  | stopTimer tid =>
    show (queuedIds (stopTimer tid s)).Nodup ∧ ∀ i ∈ queuedIds (stopTimer tid s), 0 < i ∧ i ≤ s.id
    rw [queuedIds_stopTimer]
    exact ⟨hn.erase tid, fun i hi => hr i (List.mem_of_mem_erase hi)⟩
  | is_running tid => exact ⟨hn, hr⟩
  | loopIteration now =>
    refine ⟨queuedIds_loopIteration_nodup S now s hn, ?_⟩
    intro i hi
    show 0 < i ∧ i ≤ (loopIteration S now s).state.id
    rw [(loopIteration_fields S now s).1]
    exact hr i (queuedIds_loopIteration_subset S now s hi)
  | shutDown => exact ⟨hn, hr⟩

theorem exec_idsFresh (S : Sorter) (s : timer) (ops : List Op) (h : IdsFresh s)
    (hb : s.id + scheduleCalls ops < ULONG_RANGE) :
    IdsFresh (exec S s ops) ∧ (exec S s ops).id = s.id + scheduleCalls ops := by
  induction ops generalizing s with
  | nil => exact ⟨h, rfl⟩
  | cons op ops ih =>
    rw [scheduleCalls_cons] at hb
    have hb1 : s.id + scheduleCalls [op] < ULONG_RANGE := by omega
    have hid := step_id S s op hb1
    have h2 := ih (step S s op) (step_idsFresh S s op h hb1) (by rw [hid]; omega)
    refine ⟨h2.1, ?_⟩
    rw [exec_cons, h2.2, hid, scheduleCalls_cons op ops]
    omega

theorem init_idsFresh : IdsFresh timer.init :=
  ⟨List.nodup_nil, fun i hi => absurd hi (List.not_mem_nil i)⟩

theorem reachable_idsFresh (S : Sorter) (ops : List Op) (hb : scheduleCalls ops < ULONG_RANGE) :
    IdsFresh (exec S timer.init ops) ∧ (exec S timer.init ops).id = scheduleCalls ops := by
  have h := exec_idsFresh S timer.init ops init_idsFresh
    (by show 0 + scheduleCalls ops < ULONG_RANGE; omega)
  refine ⟨h.1, ?_⟩
  rw [h.2]
  show 0 + scheduleCalls ops = scheduleCalls ops
  omega

/-- The ids `schedule` returns before the counter wraps are consecutive. -/
theorem returnedIds_range (S : Sorter) (s : timer) (ops : List Op)
    (hb : s.id + scheduleCalls ops < ULONG_RANGE) :
    returnedIds (outputs S s ops) = List.range' (s.id + 1) (scheduleCalls ops) := by
  induction ops generalizing s with
  | nil => rfl
  | cons op ops ih =>
    rw [scheduleCalls_cons] at hb
    have hb1 : s.id + scheduleCalls [op] < ULONG_RANGE := by omega
    have hid := step_id S s op hb1
    have h2 := ih (step S s op) (by rw [hid]; omega)
    rw [outputs_cons]
    cases op with
    | schedule now ms rpt f =>
      rw [scheduleCalls_schedule] at hid hb1
      have ho : output S s (Op.schedule now ms rpt f) = Output.timerID (s.id + 1) := by
        simp only [output, (schedule_fields S now ms rpt f s).2.1, getId_of_lt hb1]
      rw [ho, returnedIds_timerID, h2, hid, scheduleCalls_cons, scheduleCalls_schedule,
        Nat.add_comm 1 (scheduleCalls ops), List.range'_succ]
    | stopTimer tid =>
      simp only [scheduleCalls] at hid ⊢
      rw [hid] at h2
      simpa [output, returnedIds] using h2
    | is_running tid =>
      simp only [scheduleCalls] at hid ⊢
      rw [hid] at h2
      simpa [output, returnedIds] using h2
    | loopIteration now =>
      simp only [scheduleCalls] at hid ⊢
      rw [hid] at h2
      cases hf : (loopIteration S now s).fired <;> simpa [output, returnedIds, hf] using h2
    | shutDown =>
      simp only [scheduleCalls] at hid ⊢
      rw [hid] at h2
      simpa [output, returnedIds] using h2

/-! ## `is_running` and `stopTimer` -/

theorem is_running_iff (tid : Nat) (s : timer) :
    is_running tid s = true ↔ tid ∈ queuedIds s := by
  unfold is_running queuedIds
  rw [List.any_eq_true, List.mem_map]
  constructor
  · rintro ⟨p, hp, h⟩
    exact ⟨p, hp, by simpa using h⟩
  · rintro ⟨p, hp, h⟩
    exact ⟨p, hp, by simpa using h⟩

theorem is_running_false_iff (tid : Nat) (s : timer) :
    is_running tid s = false ↔ tid ∉ queuedIds s := by
  rw [← is_running_iff]
  cases is_running tid s <;> simp

/-- With distinct ids, erasing the first match erases every match. -/
theorem eraseP_eq_filter (tid : Nat) (l : List TimerPair)
    (hn : (l.map (fun pair => pair.second.m_tid)).Nodup) :
    l.eraseP (fun pair => decide (pair.second.m_tid = tid)) =
      l.filter (fun pair => decide (pair.second.m_tid ≠ tid)) := by
  induction l with
  | nil => rfl
  | cons x xs ih =>
    rw [List.map_cons, List.nodup_cons] at hn
    by_cases h : x.second.m_tid = tid
    · have hxs : ∀ p ∈ xs, decide (p.second.m_tid ≠ tid) = true := by
        intro p hp
        have : p.second.m_tid ≠ tid := by
          intro hpt
          exact hn.1 (List.mem_map.2 ⟨p, hp, by rw [hpt, h]⟩)
        simpa using this
      simp only [List.eraseP_cons, h, decide_True, if_true, List.filter_cons, ne_eq,
        not_true_eq_false, decide_False, Bool.false_eq_true, if_false]
      exact (List.filter_eq_self.2 hxs).symm
    · simp only [List.eraseP_cons, h, decide_False, Bool.false_eq_true, if_false,
        List.filter_cons, ne_eq, not_false_eq_true, decide_True, if_true]
      rw [ih hn.2]
      simp

theorem stopTimer_absent (tid : Nat) (s : timer) (h : tid ∉ queuedIds s) :
    stopTimer tid s = { s with deleteTid := tid } := by
  have hq : s.m_timerMap.eraseP (fun pair => decide (pair.second.m_tid = tid)) = s.m_timerMap := by
    apply List.eraseP_of_forall_not
    intro p hp hpt
    exact h (List.mem_map.2 ⟨p, hp, by simpa using hpt⟩)
  unfold stopTimer
  rw [hq]

/-! ## An id that is no longer queued -/

theorem not_mem_queuedIds_step (S : Sorter) (s : timer) (op : Op) (id : Nat)
    (habs : id ∉ queuedIds s) (hle : id ≤ s.id)
    (hb : s.id + scheduleCalls [op] < ULONG_RANGE) :
    id ∉ queuedIds (step S s op) := by
  cases op with
  | schedule now ms rpt f =>
    rw [scheduleCalls_schedule] at hb
    intro hmem
    have h2 := (queuedIds_schedule S now ms rpt f s).subset hmem
    rw [getId_of_lt hb] at h2
    rcases List.mem_append.1 h2 with h3 | h3
    · exact habs h3
    · have : id = s.id + 1 := by simpa using h3
      omega
  | stopTimer tid =>
    intro hmem
    have h2 : id ∈ queuedIds (stopTimer tid s) := hmem
    rw [queuedIds_stopTimer] at h2
    exact habs (List.mem_of_mem_erase h2)
  | is_running tid => exact habs
  | loopIteration now => exact fun hmem => habs (queuedIds_loopIteration_subset S now s hmem)
  | shutDown => exact habs

theorem output_fired_mem (S : Sorter) (s : timer) (op : Op) (entry : TimePoint)
    (h : output S s op = Output.fired entry) : entry.m_tid ∈ queuedIds s := by
  obtain ⟨pair, rest, hm, hpe, _⟩ := output_fired_front S s op entry h
  unfold queuedIds
  rw [hm, ← hpe]
  exact List.mem_cons_self _ _

theorem firedEntries_cons_mem (o : Output) (os : List Output) (e : TimePoint)
    (h : e ∈ firedEntries (o :: os)) : o = Output.fired e ∨ e ∈ firedEntries os := by
  cases o with
  | fired entry =>
    rcases List.mem_cons.1 h with h1 | h1
    · left; rw [h1]
    · right; exact h1
  | timerID i => right; exact h
  | running b => right; exact h
  | silent => right; exact h

/-- An id that was issued and is not queued is not queued again and does not
fire, as long as the counter does not wrap. -/
theorem gone_stays_gone (S : Sorter) (s : timer) (ops : List Op) (id : Nat)
    (habs : id ∉ queuedIds s) (hle : id ≤ s.id)
    (hb : s.id + scheduleCalls ops < ULONG_RANGE) :
    id ∉ queuedIds (exec S s ops) ∧
    ∀ e ∈ firedEntries (outputs S s ops), e.m_tid ≠ id := by
  induction ops generalizing s with
  | nil => exact ⟨habs, fun e he => absurd he (List.not_mem_nil e)⟩
  | cons op ops ih =>
    rw [scheduleCalls_cons] at hb
    have hb1 : s.id + scheduleCalls [op] < ULONG_RANGE := by omega
    have hid := step_id S s op hb1
    have h2 := ih (step S s op) (not_mem_queuedIds_step S s op id habs hle hb1)
      (by rw [hid]; omega) (by rw [hid]; omega)
    refine ⟨h2.1, ?_⟩
    intro e he
    rcases firedEntries_cons_mem _ _ e he with h3 | h3
    · intro heq
      exact habs (heq ▸ output_fired_mem S s op e h3)
    · exact h2.2 e h3

theorem returned_id_issued (S : Sorter) (ops : List Op) (id : Nat)
    (hb : scheduleCalls ops < ULONG_RANGE)
    (hid : id ∈ returnedIds (outputs S timer.init ops)) :
    0 < id ∧ id ≤ (exec S timer.init ops).id := by
  rw [(reachable_idsFresh S ops hb).2]
  rw [returnedIds_range S timer.init ops (by show 0 + scheduleCalls ops < ULONG_RANGE; omega)]
    at hid
  have h := List.mem_range'_1.1 hid
  have h0 : timer.init.id = 0 := rfl
  omega

theorem stopTimer_removes (tid : Nat) (s : timer) (hn : (queuedIds s).Nodup) :
    tid ∉ queuedIds (stopTimer tid s) := by
  rw [queuedIds_stopTimer]
  exact fun h => ((List.Nodup.mem_erase_iff hn).1 h).1 rfl

/-! ## Counting dispatches -/

theorem firedCount_append (id : Nat) (a b : List Output) :
    firedCount id (a ++ b) = firedCount id a + firedCount id b := by
  unfold firedCount
  rw [firedEntries_append, List.countP_append]

theorem firedCount_cons (id : Nat) (o : Output) (os : List Output) :
    firedCount id (o :: os) = firedCount id [o] + firedCount id os :=
  firedCount_append id [o] os

theorem firedCount_fired (id : Nat) (e : TimePoint) :
    firedCount id [Output.fired e] = if e.m_tid = id then 1 else 0 := by
  by_cases h : e.m_tid = id <;> simp [firedCount, firedEntries, h]

theorem firedCount_eq_zero (id : Nat) (os : List Output)
    (h : ∀ e ∈ firedEntries os, e.m_tid ≠ id) : firedCount id os = 0 := by
  unfold firedCount
  rw [List.countP_eq_zero]
  intro e he
  simpa using h e he

theorem firedCount_single_of_not_fired (id : Nat) (o : Output)
    (h : ∀ e, o = Output.fired e → e.m_tid ≠ id) : firedCount id [o] = 0 := by
  apply firedCount_eq_zero
  intro e he
  rcases firedEntries_cons_mem o [] e he with h1 | h1
  · exact h e h1
  · exact absurd h1 (List.not_mem_nil e)

/-- What a dispatching turn does to the deque. -/
theorem output_fired_cases (S : Sorter) (s : timer) (op : Op) (e : TimePoint)
    (h : output S s op = Output.fired e) :
    ∃ pair rest, s.m_timerMap = pair :: rest ∧ pair.second = e ∧
      pair.second.m_tid ≠ s.deleteTid ∧
      ((e.m_repeat = false ∧ (step S s op).m_timerMap = rest) ∨
       (e.m_repeat = true ∧ (step S s op).m_timerMap =
          S.sort (rest ++ [{ first := e.next.m_timeout, second := e.next }]))) := by
  cases op with
  | schedule now ms rpt f => simp [output] at h
  | stopTimer tid => simp [output] at h
  | is_running tid => simp [output] at h
  | shutDown => simp [output] at h
  | loopIteration now =>
    simp only [output] at h
    simp only [step]
    rcases loopIteration_cases S now s with ⟨c, _⟩ | ⟨pair, rest, hm, _, _, _, c⟩ |
      ⟨pair, rest, hm, _, _, hdel, hr, c⟩ | ⟨pair, rest, hm, _, _, hdel, hr, c⟩
    · rw [c] at h; simp at h
    · rw [c] at h; simp at h
    · rw [c] at h ⊢
      have hpe : pair.second = e := by simpa using h
      exact ⟨pair, rest, hm, hpe, hdel, Or.inl ⟨hpe ▸ hr, rfl⟩⟩
    · rw [c] at h ⊢
      have hpe : pair.second = e := by simpa using h
      exact ⟨pair, rest, hm, hpe, hdel, Or.inr ⟨hpe ▸ hr, by rw [← hpe]⟩⟩

/-- Where the pairs in the deque after a call come from: they were there
before, or `schedule` has just created them, or the turn has just re-armed
them. -/
theorem step_entries (S : Sorter) (s : timer) (op : Op) :
    ∀ q ∈ (step S s op).m_timerMap,
      q ∈ s.m_timerMap ∨
      (∃ now ms rpt f, op = Op.schedule now ms rpt f ∧
        q = { first := (TimePoint.create now f ms rpt s.id).m_timeout, second :=
            TimePoint.create now f ms rpt s.id }) ∨
      (∃ e, output S s op = Output.fired e ∧ e.m_repeat = true ∧
        q = { first := e.next.m_timeout, second := e.next }) := by
  intro q hq
  cases op with
  | schedule now ms rpt f =>
    have h2 := (S.perm _).subset (show q ∈ S.sort _ from hq)
    rcases List.mem_append.1 h2 with h3 | h3
    · exact Or.inl h3
    · exact Or.inr (Or.inl ⟨now, ms, rpt, f, rfl, by simpa using h3⟩)
  | stopTimer tid => exact Or.inl ((List.eraseP_sublist _).subset hq)
  | is_running tid => exact Or.inl hq
  | shutDown => exact Or.inl hq
  | loopIteration now =>
    simp only [step] at hq
    rcases loopIteration_cases S now s with ⟨c, _⟩ | ⟨pair, rest, hm, _, _, _, c⟩ |
      ⟨pair, rest, hm, _, _, _, _, c⟩ | ⟨pair, rest, hm, _, _, _, hr, c⟩
    · rw [c] at hq; exact Or.inl hq
    · rw [c] at hq; exact Or.inl (by rw [hm]; exact List.mem_cons_of_mem _ hq)
    · rw [c] at hq; exact Or.inl (by rw [hm]; exact List.mem_cons_of_mem _ hq)
    · rw [c] at hq
      have h2 := (S.perm _).subset hq
      rcases List.mem_append.1 h2 with h3 | h3
      · exact Or.inl (by rw [hm]; exact List.mem_cons_of_mem _ h3)
      · refine Or.inr (Or.inr ⟨pair.second, ?_, hr, by simpa using h3⟩)
        simp only [output, c]

theorem mem_queuedIds_of_mem {s : timer} {q : TimerPair} (h : q ∈ s.m_timerMap) :
    q.second.m_tid ∈ queuedIds s :=
  List.mem_map.2 ⟨q, h, rfl⟩

/-- Before the counter wraps, every dispatched entry carries an id that has
been issued. -/
theorem fired_tid_le (S : Sorter) (s : timer) (ops : List Op) (hf : IdsFresh s)
    (hb : s.id + scheduleCalls ops < ULONG_RANGE) :
    ∀ e ∈ firedEntries (outputs S s ops), 0 < e.m_tid ∧ e.m_tid ≤ s.id + scheduleCalls ops := by
  induction ops generalizing s with
  | nil => exact fun e he => absurd he (List.not_mem_nil e)
  | cons op ops ih =>
    rw [scheduleCalls_cons] at hb ⊢
    have hb1 : s.id + scheduleCalls [op] < ULONG_RANGE := by omega
    have hid := step_id S s op hb1
    have h2 := ih (step S s op) (step_idsFresh S s op hf hb1) (by rw [hid]; omega)
    intro e he
    rcases firedEntries_cons_mem _ _ e he with h3 | h3
    · have := hf.2 _ (output_fired_mem S s op e h3)
      omega
    · have := h2 e h3
      rw [hid] at this
      omega

/-- An entry that does not repeat is dispatched at most once, and not at all
while it is still queued. -/
theorem one_shot_fires_once (S : Sorter) (s : timer) (ops : List Op) (id : Nat)
    (hf : IdsFresh s) (hle : id ≤ s.id) (hb : s.id + scheduleCalls ops < ULONG_RANGE)
    (hone : ∀ p ∈ s.m_timerMap, p.second.m_tid = id → p.second.m_repeat = false) :
    firedCount id (outputs S s ops) ≤ 1 ∧
    (id ∈ queuedIds (exec S s ops) → firedCount id (outputs S s ops) = 0) ∧
    (∀ p ∈ (exec S s ops).m_timerMap, p.second.m_tid = id → p.second.m_repeat = false) := by
  induction ops generalizing s with
  | nil => exact ⟨Nat.zero_le _, fun _ => rfl, hone⟩
  | cons op ops ih =>
    rw [scheduleCalls_cons] at hb
    have hb1 : s.id + scheduleCalls [op] < ULONG_RANGE := by omega
    have hid := step_id S s op hb1
    have hb2 : (step S s op).id + scheduleCalls ops < ULONG_RANGE := by rw [hid]; omega
    have hle2 : id ≤ (step S s op).id := by rw [hid]; omega
    rw [outputs_cons, firedCount_cons, exec_cons]
    by_cases hfire : ∃ e, output S s op = Output.fired e ∧ e.m_tid = id
    · obtain ⟨e, ho, het⟩ := hfire
      obtain ⟨pair, rest, hm, hpe, _, hcase⟩ := output_fired_cases S s op e ho
      have hrep : e.m_repeat = false := by
        rw [← hpe]
        exact hone pair (by rw [hm]; exact List.mem_cons_self _ _) (by rw [hpe]; exact het)
      have hmap : (step S s op).m_timerMap = rest := by
        rcases hcase with ⟨_, h⟩ | ⟨h, _⟩
        · exact h
        · rw [hrep] at h; exact absurd h (by simp)
      have hq : queuedIds s = id :: rest.map (fun p => p.second.m_tid) := by
        simp [queuedIds, hm, hpe, het]
      have habs : id ∉ queuedIds (step S s op) := by
        have hn := hf.1
        rw [hq] at hn
        unfold queuedIds
        rw [hmap]
        exact (List.nodup_cons.1 hn).1
      have hg := gone_stays_gone S (step S s op) ops id habs hle2 hb2
      have h0 := firedCount_eq_zero id _ hg.2
      have h1 : firedCount id [output S s op] = 1 := by
        rw [ho, firedCount_fired, if_pos het]
      rw [h0, h1]
      refine ⟨le_refl _, fun hmem => absurd hmem hg.1, ?_⟩
      intro p hp hpt
      exact absurd (hpt ▸ mem_queuedIds_of_mem hp) hg.1
    · have h1 : firedCount id [output S s op] = 0 := by
        apply firedCount_single_of_not_fired
        intro e he het
        exact hfire ⟨e, he, het⟩
      have hone2 : ∀ p ∈ (step S s op).m_timerMap, p.second.m_tid = id →
          p.second.m_repeat = false := by
        intro q hq hqt
        rcases step_entries S s op q hq with h | ⟨now, ms, rpt, f, hop, hqe⟩ | ⟨e, ho, _, hqe⟩
        · exact hone q h hqt
        · rw [hop, scheduleCalls_schedule] at hb1
          rw [hqe] at hqt
          have : getId s.id = id := hqt
          rw [getId_of_lt hb1] at this
          omega
        · rw [hqe] at hqt
          exact absurd ⟨e, ho, hqt⟩ hfire
      have h2 := ih (step S s op) (step_idsFresh S s op hf hb1) hle2 hb2 hone2
      rw [h1, Nat.zero_add]
      exact h2

/-- The cancellation marker is the one the run started with, or the argument of
a `stopTimer` call of the run. -/
theorem marker_origin (S : Sorter) (s : timer) (ops : List Op) :
    (exec S s ops).deleteTid = s.deleteTid ∨
    Op.stopTimer (exec S s ops).deleteTid ∈ ops := by
  induction ops generalizing s with
  | nil => exact Or.inl rfl
  | cons op ops ih =>
    rw [exec_cons]
    rcases ih (step S s op) with h | h
    · cases op with
      | schedule now ms rpt f => exact Or.inl h
      | stopTimer tid =>
        right
        rw [h]
        exact List.mem_cons_self _ _
      | is_running tid => exact Or.inl h
      | loopIteration now => exact Or.inl (h.trans (loopIteration_fields S now s).2.1)
      | shutDown => exact Or.inl h
    · exact Or.inr (List.mem_cons_of_mem _ h)

/-- A due entry at the front that does not repeat and is not marked is
dispatched and leaves the deque. -/
theorem loopIteration_one_shot (S : Sorter) (now : HighTimePoint) (s : timer)
    (pair : TimerPair) (rest : List TimerPair) (hm : s.m_timerMap = pair :: rest)
    (hd : s.done = false) (hdue : pair.second.m_timeout < now)
    (hdel : pair.second.m_tid ≠ s.deleteTid) (hr : pair.second.m_repeat = false) :
    (loopIteration S now s).fired = some pair.second ∧
    (loopIteration S now s).state.m_timerMap = rest := by
  rcases loopIteration_cases S now s with ⟨_, c⟩ | ⟨p, r, hm2, _, _, hdel2, _⟩ |
    ⟨p, r, hm2, _, _, _, _, c⟩ | ⟨p, r, hm2, _, _, _, hr2, _⟩
  · rcases c with c | c | ⟨p, r, hm2, hnd⟩
    · rw [hd] at c; exact absurd c (by simp)
    · rw [hm] at c; exact absurd c (by simp)
    · rw [hm] at hm2
      have hp : pair = p := (List.cons.inj hm2).1
      exact absurd (hp ▸ hdue) hnd
  · rw [hm] at hm2
    have hp : pair = p := (List.cons.inj hm2).1
    exact absurd (hp ▸ hdel2) hdel
  · rw [hm] at hm2
    obtain ⟨hp, hrest⟩ := List.cons.inj hm2
    rw [c, ← hp, ← hrest]
    exact ⟨rfl, rfl⟩
  · rw [hm] at hm2
    have hp : pair = p := (List.cons.inj hm2).1
    rw [← hp, hr] at hr2
    exact absurd hr2 (by simp)

/-! ## Re-arming -/

/-- A due repeating entry at the front that is not marked is dispatched and
queued again with its deadline advanced. -/
theorem loopIteration_repeat (S : Sorter) (now : HighTimePoint) (s : timer)
    (pair : TimerPair) (hp : (loopIteration S now s).popped = some pair)
    (hdel : pair.second.m_tid ≠ s.deleteTid) (hr : pair.second.m_repeat = true) :
    ∃ rest, s.m_timerMap = pair :: rest ∧
    (loopIteration S now s).fired = some pair.second ∧
    (loopIteration S now s).state.futureList = s.futureList ++ [pair.second.m_func] ∧
    (loopIteration S now s).state.m_timerMap =
      S.sort (rest ++ [{ first := pair.second.next.m_timeout, second := pair.second.next }]) := by
  rcases loopIteration_cases S now s with ⟨c, _⟩ | ⟨p, r, hm2, _, _, hdel2, c⟩ |
    ⟨p, r, hm2, _, _, _, hr2, c⟩ | ⟨p, r, hm2, _, _, _, _, c⟩
  · rw [c] at hp; exact absurd hp (by simp)
  · rw [c] at hp
    have : p = pair := by simpa using hp
    exact absurd (this ▸ hdel2) hdel
  · rw [c] at hp
    have : p = pair := by simpa using hp
    rw [this, hr] at hr2
    exact absurd hr2 (by simp)
  · rw [c] at hp ⊢
    have : p = pair := by simpa using hp
    subst this
    exact ⟨r, hm2, rfl, rfl, rfl⟩

theorem filter_tid_rearmed (S : Sorter) (pair : TimerPair) (rest : List TimerPair)
    (hn : ((pair :: rest).map (fun p => p.second.m_tid)).Nodup) :
    (S.sort (rest ++ [{ first := pair.second.next.m_timeout, second := pair.second.next }])).filter
      (fun p => decide (p.second.m_tid = pair.second.m_tid)) =
      [{ first := pair.second.next.m_timeout, second := pair.second.next }] := by
  rw [List.map_cons, List.nodup_cons] at hn
  have hrest : rest.filter (fun p => decide (p.second.m_tid = pair.second.m_tid)) = [] := by
    rw [List.filter_eq_nil_iff]
    intro q hq hqt
    exact hn.1 (List.mem_map.2 ⟨q, hq, by simpa using hqt⟩)
  have hperm := (S.perm (rest ++
    [{ first := pair.second.next.m_timeout, second := pair.second.next }])).filter
    (fun p => decide (p.second.m_tid = pair.second.m_tid))
  rw [List.filter_append, hrest, List.nil_append] at hperm
  have hlast : List.filter (fun p => decide (p.second.m_tid = pair.second.m_tid))
      [({ first := pair.second.next.m_timeout, second := pair.second.next } : TimerPair)] =
      [{ first := pair.second.next.m_timeout, second := pair.second.next }] := by
    simp [TimePoint.next]
  rw [hlast] at hperm
  exact List.perm_singleton.1 hperm

theorem armed_next (t0 : HighTimePoint) (ms f id k : Nat) :
    ({ first := (armed t0 ms f id k).second.next.m_timeout
       second := (armed t0 ms f id k).second.next } : TimerPair) = armed t0 ms f id (k + 1) := by
  have h : wrapTicks (wrapTicks (t0 + ((k : Int) + 1) * milliseconds ms) + milliseconds ms) =
      wrapTicks (t0 + (((k + 1 : Nat) : Int) + 1) * milliseconds ms) := by
    rw [wrapTicks_wrapTicks_add]
    congr 1
    push_cast
    ring
  simp only [armed, TimePoint.next, h]

/-- The deadline of a repeating entry advances by its interval with each
dispatch. -/
theorem rearm_deadline (S : Sorter) (s : timer) (ops : List Op) (t0 : HighTimePoint)
    (ms f id k : Nat) (hf : IdsFresh s) (hle : id ≤ s.id)
    (hb : s.id + scheduleCalls ops < ULONG_RANGE)
    (hinv : ∀ p ∈ s.m_timerMap, p.second.m_tid = id → p = armed t0 ms f id k) :
    ∀ p ∈ (exec S s ops).m_timerMap, p.second.m_tid = id →
      p = armed t0 ms f id (k + firedCount id (outputs S s ops)) := by
  induction ops generalizing s k with
  | nil => exact hinv
  | cons op ops ih =>
    rw [scheduleCalls_cons] at hb
    have hb1 : s.id + scheduleCalls [op] < ULONG_RANGE := by omega
    have hid := step_id S s op hb1
    have hb2 : (step S s op).id + scheduleCalls ops < ULONG_RANGE := by rw [hid]; omega
    have hle2 : id ≤ (step S s op).id := by rw [hid]; omega
    have hf2 := step_idsFresh S s op hf hb1
    rw [outputs_cons, firedCount_cons, exec_cons, ← Nat.add_assoc]
    apply ih (step S s op) (k + firedCount id [output S s op]) hf2 hle2 hb2
    by_cases hfire : ∃ e, output S s op = Output.fired e ∧ e.m_tid = id
    · obtain ⟨e, ho, het⟩ := hfire
      obtain ⟨pair, rest, hm, hpe, _, hcase⟩ := output_fired_cases S s op e ho
      have hpa : pair = armed t0 ms f id k :=
        hinv pair (by rw [hm]; exact List.mem_cons_self _ _) (by rw [hpe]; exact het)
      have hea : e = (armed t0 ms f id k).second := by rw [← hpe, hpa]
      have hmap : (step S s op).m_timerMap =
          S.sort (rest ++ [{ first := e.next.m_timeout, second := e.next }]) := by
        rcases hcase with ⟨h, _⟩ | ⟨_, h⟩
        · rw [hea] at h; exact absurd h (by simp [armed])
        · exact h
      rw [ho, firedCount_fired, if_pos het]
      intro q hq hqt
      rw [hmap] at hq
      rcases List.mem_append.1 ((S.perm _).subset hq) with h | h
      · have hn := hf.1
        unfold queuedIds at hn
        rw [hm, List.map_cons, List.nodup_cons] at hn
        refine absurd (List.mem_map.2 ⟨q, h, ?_⟩) hn.1
        rw [hqt, hpe, het]
      · have hq2 : q = { first := e.next.m_timeout, second := e.next } := by simpa using h
        rw [hq2, hea]
        exact armed_next t0 ms f id k
    · have h1 : firedCount id [output S s op] = 0 := by
        apply firedCount_single_of_not_fired
        intro e he het
        exact hfire ⟨e, he, het⟩
      rw [h1, Nat.add_zero]
      intro q hq hqt
      rcases step_entries S s op q hq with h | ⟨now, ms2, rpt, f2, hop, hqe⟩ | ⟨e, ho, _, hqe⟩
      · exact hinv q h hqt
      · rw [hop, scheduleCalls_schedule] at hb1
        rw [hqe] at hqt
        have : getId s.id = id := hqt
        rw [getId_of_lt hb1] at this
        omega
      · rw [hqe] at hqt
        exact absurd ⟨e, ho, hqt⟩ hfire

/-! ## A marker that matches no entry -/

theorem loopIteration_marker (S : Sorter) (now : HighTimePoint) (s : timer) (d : Nat)
    (h1 : s.deleteTid ∉ queuedIds s) (h2 : d ∉ queuedIds s) :
    loopIteration S now { s with deleteTid := d } =
      { loopIteration S now s with
        state := { (loopIteration S now s).state with deleteTid := d } } := by
  unfold loopIteration
  rw [loopIteration_flag, loopIteration_flag]
  cases hd : s.done with
  | true => simp [hd]
  | false =>
    cases hm : s.m_timerMap with
    | nil => simp [hd, hm]
    | cons pair rest =>
      have hp1 : pair.second.m_tid ≠ s.deleteTid := by
        intro h
        exact h1 (h ▸ mem_queuedIds_of_mem (by rw [hm]; exact List.mem_cons_self _ _))
      have hp2 : pair.second.m_tid ≠ d := by
        intro h
        exact h2 (h ▸ mem_queuedIds_of_mem (by rw [hm]; exact List.mem_cons_self _ _))
      by_cases hdue : pair.second.m_timeout < now
      · simp [hd, hm, hdue, hp1, hp2]
      · simp [hd, hm, hdue]

theorem markerRel_step (S : Sorter) (s1 s2 : timer) (op : Op) (h : MarkerRel s1 s2)
    (hb : s1.id + scheduleCalls [op] < ULONG_RANGE) :
    output S s1 op = output S s2 op ∧ MarkerRel (step S s1 op) (step S s2 op) := by
  rcases h with h | ⟨hs, h1, h1le, h2, h2le⟩
  · rw [h]; exact ⟨rfl, Or.inl rfl⟩
  · unfold SameButMarker at hs
    have hid := step_id S s1 op hb
    have hk1 := not_mem_queuedIds_step S s1 op _ h1 h1le hb
    have hk2 := not_mem_queuedIds_step S s1 op _ h2 h2le hb
    cases op with
    | schedule now ms rpt f =>
      rw [hs]
      refine ⟨rfl, Or.inr ⟨rfl, hk1, ?_, hk2, ?_⟩⟩
      · show s1.deleteTid ≤ (step S s1 (Op.schedule now ms rpt f)).id
        rw [hid]; omega
      · show s2.deleteTid ≤ (step S s1 (Op.schedule now ms rpt f)).id
        rw [hid]; omega
    | stopTimer tid =>
      rw [hs]
      exact ⟨rfl, Or.inl rfl⟩
    | is_running tid =>
      rw [hs]
      exact ⟨rfl, Or.inr ⟨rfl, h1, h1le, h2, h2le⟩⟩
    | shutDown =>
      rw [hs]
      exact ⟨rfl, Or.inr ⟨rfl, h1, h1le, h2, h2le⟩⟩
    | loopIteration now =>
      have hl := loopIteration_marker S now s1 s2.deleteTid h1 h2
      rw [← hs] at hl
      have hd1 : (step S s1 (Op.loopIteration now)).deleteTid = s1.deleteTid :=
        (loopIteration_fields S now s1).2.1
      have hd2 : (step S s2 (Op.loopIteration now)).deleteTid = s2.deleteTid :=
        (loopIteration_fields S now s2).2.1
      refine ⟨?_, Or.inr ⟨?_, ?_, ?_, ?_, ?_⟩⟩
      · simp only [output, hl]
      · show (loopIteration S now s2).state =
          { (loopIteration S now s1).state with
            deleteTid := (loopIteration S now s2).state.deleteTid }
        rw [hl]
      · rw [hd1]; exact hk1
      · rw [hd1, hid]; omega
      · rw [hd2]; exact hk2
      · rw [hd2, hid]; omega

theorem markerRel_exec (S : Sorter) (s1 s2 : timer) (ops : List Op) (h : MarkerRel s1 s2)
    (hb : s1.id + scheduleCalls ops < ULONG_RANGE) :
    outputs S s1 ops = outputs S s2 ops ∧ MarkerRel (exec S s1 ops) (exec S s2 ops) := by
  induction ops generalizing s1 s2 with
  | nil => exact ⟨rfl, h⟩
  | cons op ops ih =>
    rw [scheduleCalls_cons] at hb
    have hb1 : s1.id + scheduleCalls [op] < ULONG_RANGE := by omega
    have hid := step_id S s1 op hb1
    obtain ⟨ho, hr⟩ := markerRel_step S s1 s2 op h hb1
    obtain ⟨hos, hrs⟩ := ih (step S s1 op) (step S s2 op) hr (by rw [hid]; omega)
    exact ⟨by rw [outputs_cons, outputs_cons, ho, hos], hrs⟩

theorem markerRel_same (s1 s2 : timer) (h : MarkerRel s1 s2) : SameButMarker s1 s2 := by
  rcases h with h | ⟨h, _⟩
  · rw [h]; rfl
  · exact h

/-! ## Deadlines in reachable states -/

theorem step_fits (S : Sorter) (s : timer) (op : Op)
    (h : ∀ p ∈ s.m_timerMap, fitsTicks p.second.m_timeout) :
    ∀ p ∈ (step S s op).m_timerMap, fitsTicks p.second.m_timeout := by
  intro q hq
  rcases step_entries S s op q hq with h1 | ⟨now, ms, rpt, f, _, hqe⟩ | ⟨e, _, _, hqe⟩
  · exact h q h1
  · rw [hqe]; exact wrapTicks_fits _
  · rw [hqe]; exact wrapTicks_fits _

theorem exec_fits (S : Sorter) (s : timer) (ops : List Op)
    (h : ∀ p ∈ s.m_timerMap, fitsTicks p.second.m_timeout) :
    ∀ p ∈ (exec S s ops).m_timerMap, fitsTicks p.second.m_timeout := by
  induction ops generalizing s with
  | nil => exact h
  | cons op ops ih => exact ih (step S s op) (step_fits S s op h)

/-- Every queued deadline is a value of the signed 64-bit tick count. -/
theorem reachable_fits (S : Sorter) (ops : List Op) :
    ∀ p ∈ (exec S timer.init ops).m_timerMap, fitsTicks p.second.m_timeout :=
  exec_fits S timer.init ops (fun p hp => absurd hp (List.not_mem_nil p))

/-- While only one-shot entries are queued and `schedule` is not called, no
pair enters the deque. -/
theorem lateEntries_of_oneShot (S : Sorter) (s : timer) (fired : List TimePoint)
    (later : List Op) (hl : scheduleCalls later = 0)
    (h1 : ∀ p ∈ s.m_timerMap, p.second.m_repeat = false) :
    lateEntries S s fired later = true := by
  induction later generalizing s fired with
  | nil => rfl
  | cons op ops ih =>
    have hop : scheduleCalls [op] = 0 := by
      cases op <;> simp [scheduleCalls] at hl ⊢
    have hops : scheduleCalls ops = 0 := by
      cases op <;> simp [scheduleCalls] at hl ⊢ <;> exact hl
    have hsub : ∀ q ∈ (step S s op).m_timerMap, q ∈ s.m_timerMap := by
      intro q hq
      rcases step_entries S s op q hq with h | ⟨now, ms, rpt, f, hsch, _⟩ | ⟨e, ho, hr, _⟩
      · exact h
      · rw [hsch] at hop; simp [scheduleCalls] at hop
      · obtain ⟨pair, rest, hm, hpe, _⟩ := output_fired_front S s op e ho
        have := h1 pair (by rw [hm]; exact List.mem_cons_self _ _)
        rw [hpe, hr] at this
        exact absurd this (by simp)
    simp only [lateEntries, Bool.and_eq_true, decide_eq_true_eq]
    exact ⟨fun q hq => Or.inl (hsub q hq), ih (step S s op) _ hops (fun p hp => h1 p (hsub p hp))⟩

/-! ## The claims -/

/-- C1 (amended): once `stopTimer(id)` has returned for an id that `schedule` had
returned, no later loop turn dispatches an entry with that id and the id is not
queued again, whatever calls follow and whether or not the timer repeats, as
long as `schedule` is called fewer than `2^64` times in all. -/
theorem C1_no_fire_after_stop (S : Sorter) (pre post : List Op) (id : Nat)
    (hwrap : scheduleCalls (pre ++ post) < ULONG_RANGE)
    (hid : id ∈ returnedIds (outputs S timer.init pre)) :
    (∀ e ∈ firedEntries (outputs S (exec S timer.init (pre ++ [Op.stopTimer id])) post),
      e.m_tid ≠ id) ∧
    is_running id (exec S timer.init (pre ++ Op.stopTimer id :: post)) = false := by
  rw [scheduleCalls_append] at hwrap
  have hpre : scheduleCalls pre < ULONG_RANGE := by omega
  have hf := reachable_idsFresh S pre hpre
  have hi := returned_id_issued S pre id hpre hid
  have hs : exec S timer.init (pre ++ [Op.stopTimer id]) =
      stopTimer id (exec S timer.init pre) := by
    rw [exec_append]; rfl
  have hs2 : exec S timer.init (pre ++ Op.stopTimer id :: post) =
      exec S (stopTimer id (exec S timer.init pre)) post := by
    rw [exec_append]; rfl
  have hg := gone_stays_gone S (stopTimer id (exec S timer.init pre)) post id
    (stopTimer_removes id _ hf.1.1) hi.2
    (by show (exec S timer.init pre).id + scheduleCalls post < ULONG_RANGE
        rw [hf.2]; exact hwrap)
  rw [hs, hs2, is_running_false_iff]
  exact ⟨hg.2, hg.1⟩

/-- C1, on the scenario of the specification: a timer repeating every 20 ms
fires three times, is stopped, and the turns that follow dispatch nothing. -/
theorem C1_witness :
    scheduleCalls ([Op.schedule 0 20 true 1, Op.loopIteration 20000001,
        Op.loopIteration 40000001, Op.loopIteration 60000001] ++
      [Op.loopIteration 80000001, Op.loopIteration 100000001, Op.loopIteration 160000001])
      < ULONG_RANGE ∧
    1 ∈ returnedIds (outputs insertionSorter timer.init
      [Op.schedule 0 20 true 1, Op.loopIteration 20000001,
        Op.loopIteration 40000001, Op.loopIteration 60000001]) ∧
    (firedEntries (outputs insertionSorter timer.init
      [Op.schedule 0 20 true 1, Op.loopIteration 20000001,
        Op.loopIteration 40000001, Op.loopIteration 60000001])).length = 3 ∧
    firedEntries (outputs insertionSorter (exec insertionSorter timer.init
        ([Op.schedule 0 20 true 1, Op.loopIteration 20000001,
          Op.loopIteration 40000001, Op.loopIteration 60000001] ++ [Op.stopTimer 1]))
      [Op.loopIteration 80000001, Op.loopIteration 100000001, Op.loopIteration 160000001]) = [] ∧
    is_running 1 (exec insertionSorter timer.init
      ([Op.schedule 0 20 true 1, Op.loopIteration 20000001,
          Op.loopIteration 40000001, Op.loopIteration 60000001] ++ Op.stopTimer 1 ::
        [Op.loopIteration 80000001, Op.loopIteration 100000001, Op.loopIteration 160000001]))
      = false :=
  ⟨by decide, by decide, by decide, by decide,
    (C1_no_fire_after_stop insertionSorter
      [Op.schedule 0 20 true 1, Op.loopIteration 20000001,
        Op.loopIteration 40000001, Op.loopIteration 60000001]
      [Op.loopIteration 80000001, Op.loopIteration 100000001, Op.loopIteration 160000001]
      1 (by decide) (by decide)).2⟩

/-- C1 as stated fails on the trace `wrapAround` followed by `schedule` at clock
-1: the repeating timer scheduled first (callable 7) has id 1, and so has the
new entry, which sorts before it.  `stopTimer(1)` erases the new entry only;
after `stopTimer(2)` has overwritten the marker, the turn at clock 1 dispatches
the first timer, whose id 1 was returned by `schedule` and passed to
`stopTimer`. -/
theorem C1_counterexample :
    1 ∈ returnedIds (outputs insertionSorter timer.init
      (wrapAround true ++ [Op.schedule (-1) 0 false 9])) ∧
    firedEntries (outputs insertionSorter
      (exec insertionSorter timer.init
        ((wrapAround true ++ [Op.schedule (-1) 0 false 9]) ++ [Op.stopTimer 1]))
      [Op.stopTimer 2, Op.loopIteration 1]) =
      [{ m_ms := 0, m_timeout := 0, m_func := 7, m_repeat := true, m_tid := 1 }] := by
  refine ⟨wrapAround_first_id true _, ?_⟩
  rw [List.append_assoc, exec_append, exec_wrapAround]
  decide

/-- C2 (amended): let `id` be the id `schedule` returns for a one-shot entry, and
let `schedule` be called fewer than `2^64` times in all.  Then (1) over any
sequence of calls an entry with that id is dispatched at most once; (2) if
`stopTimer(id)` is never called, the turn that finds the entry due at the front
dispatches it, this is its one and only dispatch, and the turn removes it
without re-inserting it; (3) if `stopTimer(id)` is called while the entry is
still queued, it is dispatched zero times. -/
theorem C2_one_shot (S : Sorter) (pre post : List Op) (now : HighTimePoint) (ms f id : Nat)
    (hwrap : scheduleCalls (pre ++ Op.schedule now ms false f :: post) < ULONG_RANGE)
    (hid : id = (schedule S now ms false f (exec S timer.init pre)).2) :
    firedCount id (outputs S timer.init (pre ++ Op.schedule now ms false f :: post)) ≤ 1 ∧
    (Op.stopTimer id ∉ pre ++ post →
      ∀ t pair rest,
        (exec S timer.init (pre ++ Op.schedule now ms false f :: post)).m_timerMap = pair :: rest →
        pair.second.m_tid = id → pair.second.m_timeout < t →
        (exec S timer.init (pre ++ Op.schedule now ms false f :: post)).done = false →
        (loopIteration S t
          (exec S timer.init (pre ++ Op.schedule now ms false f :: post))).fired =
            some pair.second ∧
        (loopIteration S t
          (exec S timer.init (pre ++ Op.schedule now ms false f :: post))).state.m_timerMap =
            rest ∧
        is_running id (loopIteration S t
          (exec S timer.init (pre ++ Op.schedule now ms false f :: post))).state = false ∧
        firedCount id (outputs S timer.init
          ((pre ++ Op.schedule now ms false f :: post) ++ [Op.loopIteration t])) = 1) ∧
    (∀ later,
      is_running id (exec S timer.init (pre ++ Op.schedule now ms false f :: post)) = true →
      scheduleCalls ((pre ++ Op.schedule now ms false f :: post) ++ later) < ULONG_RANGE →
      firedCount id (outputs S timer.init
        ((pre ++ Op.schedule now ms false f :: post) ++ Op.stopTimer id :: later)) = 0) := by
  have hcalls : scheduleCalls (pre ++ Op.schedule now ms false f :: post) =
      scheduleCalls pre + (1 + scheduleCalls post) := by
    rw [scheduleCalls_append, scheduleCalls_cons, scheduleCalls_schedule]
  rw [hcalls] at hwrap
  have hpre : scheduleCalls pre < ULONG_RANGE := by omega
  obtain ⟨hf0, hid0⟩ := reachable_idsFresh S pre hpre
  have hb1 : (exec S timer.init pre).id + scheduleCalls [Op.schedule now ms false f]
      < ULONG_RANGE := by
    rw [hid0, scheduleCalls_schedule]; omega
  have hidv : id = (exec S timer.init pre).id + 1 := by
    rw [hid, (schedule_fields S now ms false f _).2.1]
    rw [scheduleCalls_schedule] at hb1
    exact getId_of_lt hb1
  have hf1 := step_idsFresh S _ (Op.schedule now ms false f) hf0 hb1
  have hid1 := step_id S (exec S timer.init pre) (Op.schedule now ms false f) hb1
  rw [scheduleCalls_schedule] at hid1
  have hle1 : id ≤ (step S (exec S timer.init pre) (Op.schedule now ms false f)).id := by
    rw [hid1, hidv]
  have hb2 : (step S (exec S timer.init pre) (Op.schedule now ms false f)).id
      + scheduleCalls post < ULONG_RANGE := by
    rw [hid1, hid0]; omega
  have hone1 : ∀ p ∈ (step S (exec S timer.init pre) (Op.schedule now ms false f)).m_timerMap,
      p.second.m_tid = id → p.second.m_repeat = false := by
    intro q hq hqt
    rcases step_entries S _ _ q hq with h | ⟨now2, ms2, rpt2, f2, hop, hqe⟩ | ⟨e, ho, _, _⟩
    · have := (hf0.2 _ (mem_queuedIds_of_mem h)).2
      omega
    · have hrpt : false = rpt2 := by injection hop
      rw [hqe, ← hrpt]
      rfl
    · simp [output] at ho
  obtain ⟨hc1, hc2, hc3⟩ := one_shot_fires_once S _ post id hf1 hle1 hb2 hone1
  have hexec : exec S timer.init (pre ++ Op.schedule now ms false f :: post) =
      exec S (step S (exec S timer.init pre) (Op.schedule now ms false f)) post := by
    rw [exec_append, exec_cons]
  have hfpre : firedCount id (outputs S timer.init pre) = 0 := by
    apply firedCount_eq_zero
    intro e he
    have := (fired_tid_le S timer.init pre init_idsFresh
      (by show 0 + scheduleCalls pre < ULONG_RANGE; omega) e he).2
    have h0 : timer.init.id = 0 := rfl
    rw [h0] at this
    omega
  have hcount : firedCount id (outputs S timer.init (pre ++ Op.schedule now ms false f :: post))
      = firedCount id (outputs S (step S (exec S timer.init pre) (Op.schedule now ms false f))
          post) := by
    rw [outputs_append, firedCount_append, hfpre, outputs_cons, firedCount_cons]
    have : firedCount id [output S (exec S timer.init pre) (Op.schedule now ms false f)] = 0 := by
      apply firedCount_single_of_not_fired
      intro e he
      simp [output] at he
    rw [this]
    omega
  obtain ⟨hffin, hidfin⟩ := exec_idsFresh S _ post hf1 hb2
  rw [← hexec] at hc2 hc3 hffin hidfin
  refine ⟨by rw [hcount]; exact hc1, ?_, ?_⟩
  · intro hnostop t pair rest hm hpt hdue hdone
    have hdel : pair.second.m_tid ≠
        (exec S timer.init (pre ++ Op.schedule now ms false f :: post)).deleteTid := by
      intro hcontra
      rcases marker_origin S timer.init (pre ++ Op.schedule now ms false f :: post) with h | h
      · rw [h] at hcontra
        have h0 : timer.init.deleteTid = 0 := rfl
        omega
      · rw [← hcontra, hpt] at h
        rcases List.mem_append.1 h with h1 | h1
        · exact hnostop (List.mem_append_left _ h1)
        · rcases List.mem_cons.1 h1 with h2 | h2
          · exact absurd h2 (by simp)
          · exact hnostop (List.mem_append_right _ h2)
    have hrep := hc3 pair (by rw [hm]; exact List.mem_cons_self _ _) hpt
    obtain ⟨hfired, hmap⟩ := loopIteration_one_shot S t _ pair rest hm hdone hdue hdel hrep
    have hmemid : id ∈ queuedIds (exec S timer.init
        (pre ++ Op.schedule now ms false f :: post)) := by
      rw [← hpt]
      exact mem_queuedIds_of_mem (by rw [hm]; exact List.mem_cons_self _ _)
    refine ⟨hfired, hmap, ?_, ?_⟩
    · rw [is_running_false_iff]
      have hn := hffin.1
      unfold queuedIds at hn ⊢
      rw [hmap]
      rw [hm, List.map_cons, hpt] at hn
      exact (List.nodup_cons.1 hn).1
    · rw [outputs_append, firedCount_append, hcount, hc2 hmemid, Nat.zero_add]
      have ho : outputs S (exec S timer.init (pre ++ Op.schedule now ms false f :: post))
          [Op.loopIteration t] = [Output.fired pair.second] := by
        simp [outputs, output, hfired]
      rw [ho, firedCount_fired, if_pos hpt]
  · intro later hrun hwrap2
    have hmemid := (is_running_iff id _).1 hrun
    rw [outputs_append, firedCount_append, hcount, hc2 hmemid, Nat.zero_add,
      outputs_cons, firedCount_cons]
    have h1 : firedCount id [output S
        (exec S timer.init (pre ++ Op.schedule now ms false f :: post)) (Op.stopTimer id)] = 0 := by
      apply firedCount_single_of_not_fired
      intro e he
      simp [output] at he
    rw [h1, Nat.zero_add]
    apply firedCount_eq_zero
    rw [scheduleCalls_append, hcalls] at hwrap2
    have hle : id ≤ (exec S timer.init (pre ++ Op.schedule now ms false f :: post)).id := by
      rw [hidfin, hid1, hidv]; omega
    refine (gone_stays_gone S _ later id (stopTimer_removes id _ hffin.1) hle ?_).2
    show (exec S timer.init (pre ++ Op.schedule now ms false f :: post)).id
      + scheduleCalls later < ULONG_RANGE
    rw [hidfin, hid1, hid0]
    omega

/-- C2, on a one-shot timer of 50 ms that is due at the front: the turn fires
it, that is its only dispatch, and the turn after finds nothing to fire. -/
theorem C2_witness :
    scheduleCalls ([] ++ Op.schedule 0 50 false 1 :: [Op.loopIteration 7]) < ULONG_RANGE ∧
    1 = (schedule insertionSorter 0 50 false 1 (exec insertionSorter timer.init [])).2 ∧
    outputs insertionSorter timer.init
      (([] ++ Op.schedule 0 50 false 1 :: [Op.loopIteration 7]) ++
        [Op.loopIteration 50000001, Op.loopIteration 50000002]) =
      [Output.timerID 1, Output.silent,
       Output.fired { m_ms := 50, m_timeout := 50000000, m_func := 1, m_repeat := false,
                      m_tid := 1 },
       Output.silent] ∧
    firedCount 1 (outputs insertionSorter timer.init
      (([] ++ Op.schedule 0 50 false 1 :: [Op.loopIteration 7]) ++
        [Op.loopIteration 50000001])) = 1 ∧
    firedCount 1 (outputs insertionSorter timer.init
      (([] ++ Op.schedule 0 50 false 1 :: [Op.loopIteration 7]) ++
        Op.stopTimer 1 :: [Op.loopIteration 50000001])) = 0 :=
  ⟨by decide, by decide, by decide,
    ((C2_one_shot insertionSorter [] [Op.loopIteration 7] 0 50 1 1 (by decide) (by decide)).2.1
      (by decide) 50000001
      { first := 50000000
        second := { m_ms := 50, m_timeout := 50000000, m_func := 1, m_repeat := false,
                    m_tid := 1 } }
      [] (by decide) (by decide) (by decide) (by decide)).2.2.2,
    (C2_one_shot insertionSorter [] [Op.loopIteration 7] 0 50 1 1 (by decide) (by decide)).2.2
      [Op.loopIteration 50000001] (by decide) (by decide)⟩

/-- C2 as stated fails on the trace `wrapAround` followed by `schedule` at clock
-1: the one-shot timer scheduled first (callable 7) got id 1 and is still
queued, behind a second entry with id 1.  `stopTimer(1)` is called while it is
queued but erases the other entry; after `stopTimer(2)` the turn at clock 1
dispatches it. -/
theorem C2_counterexample :
    (exec insertionSorter timer.init
      (wrapAround false ++ [Op.schedule (-1) 0 false 9])).m_timerMap =
      [{ first := -1
         second := { m_ms := 0, m_timeout := -1, m_func := 9, m_repeat := false, m_tid := 1 } },
       { first := 0
         second := { m_ms := 0, m_timeout := 0, m_func := 7, m_repeat := false, m_tid := 1 } }] ∧
    outputs insertionSorter
      (exec insertionSorter timer.init (wrapAround false ++ [Op.schedule (-1) 0 false 9]))
      [Op.stopTimer 1, Op.stopTimer 2, Op.loopIteration 1] =
      [Output.silent, Output.silent,
       Output.fired { m_ms := 0, m_timeout := 0, m_func := 7, m_repeat := false, m_tid := 1 }] := by
  rw [exec_append, exec_wrapAround]
  exact ⟨by decide, by decide⟩

/-- C3 (amended): in every reachable state a loop turn that pops an entry pops
the front of the deque, whose deadline is minimal among all queued entries,
whatever the order of the `schedule` calls that queued them.  The entries
dispatched over a run that starts in a reachable state come in ascending order
of their deadlines when no pair enters the deque during the run (pushed by
`schedule`, or pushed back by a loop turn after `next`) with a deadline earlier
than that of an entry the run has dispatched before; in particular when
`schedule` is not called during the run and only one-shot entries are queued
at its start. -/
theorem C3_earliest_deadline_first (S : Sorter) (ops : List Op) :
    (∀ now pair, (loopIteration S now (exec S timer.init ops)).popped = some pair →
      List.head? (exec S timer.init ops).m_timerMap = some pair ∧
      ∀ p ∈ (exec S timer.init ops).m_timerMap,
        pair.second.m_timeout ≤ p.second.m_timeout) ∧
    (∀ later, lateEntries S (exec S timer.init ops) [] later = true →
      (firedEntries (outputs S (exec S timer.init ops) later)).Pairwise
        (fun a b => a.m_timeout ≤ b.m_timeout)) ∧
    (∀ later, scheduleCalls later = 0 →
      (∀ p ∈ (exec S timer.init ops).m_timerMap, p.second.m_repeat = false) →
      (firedEntries (outputs S (exec S timer.init ops) later)).Pairwise
        (fun a b => a.m_timeout ≤ b.m_timeout)) := by
  have hs := exec_sorted S timer.init ops init_sorted
  have hnil : ∀ q ∈ (exec S timer.init ops).m_timerMap, ∀ e ∈ ([] : List TimePoint),
      e.m_timeout ≤ q.second.m_timeout := fun q _ e he => absurd he (List.not_mem_nil e)
  refine ⟨?_, fun later hl => (fired_ascending S _ [] later hs hnil hl).1,
    fun later hl h1 => (fired_ascending S _ [] later hs hnil
      (lateEntries_of_oneShot S _ [] later hl h1)).1⟩
  intro now pair hp
  obtain ⟨rest, hm, _, _⟩ := popped_is_front S now _ pair hp
  rw [hm] at hs ⊢
  exact ⟨rfl, sorted_head_le hs⟩

/-- C3, the scenario of the specification: 10 ms is scheduled before 5 ms, the
5 ms entry is popped first; a repeating 4 ms timer is scheduled while the loop
runs; the dispatched deadlines are 5, 10, 10 and 14 ms. -/
theorem C3_witness :
    (loopIteration insertionSorter 6000000 (exec insertionSorter timer.init
        [Op.schedule 0 10 false 1, Op.schedule 0 5 false 2])).popped =
      some { first := 5000000
             second := { m_ms := 5, m_timeout := 5000000, m_func := 2, m_repeat := false,
                         m_tid := 2 } } ∧
    lateEntries insertionSorter (exec insertionSorter timer.init
        [Op.schedule 0 10 false 1, Op.schedule 0 5 false 2]) []
      [Op.loopIteration 6000000, Op.schedule 6000000 4 true 3, Op.loopIteration 11000000,
       Op.loopIteration 11000000, Op.loopIteration 15000000] = true ∧
    (firedEntries (outputs insertionSorter (exec insertionSorter timer.init
        [Op.schedule 0 10 false 1, Op.schedule 0 5 false 2])
      [Op.loopIteration 6000000, Op.schedule 6000000 4 true 3, Op.loopIteration 11000000,
       Op.loopIteration 11000000, Op.loopIteration 15000000])).map (fun e => e.m_timeout) =
      [5000000, 10000000, 10000000, 14000000] ∧
    (firedEntries (outputs insertionSorter (exec insertionSorter timer.init
        [Op.schedule 0 10 false 1, Op.schedule 0 5 false 2])
      [Op.loopIteration 6000000, Op.schedule 6000000 4 true 3, Op.loopIteration 11000000,
       Op.loopIteration 11000000, Op.loopIteration 15000000])).Pairwise
      (fun a b => a.m_timeout ≤ b.m_timeout) :=
  ⟨by decide, by decide, by decide,
    (C3_earliest_deadline_first insertionSorter
      [Op.schedule 0 10 false 1, Op.schedule 0 5 false 2]).2.1
      [Op.loopIteration 6000000, Op.schedule 6000000 4 true 3, Op.loopIteration 11000000,
       Op.loopIteration 11000000, Op.loopIteration 15000000] (by decide)⟩

/-- C3 as stated fails.  A repeating timer with the delay `2^64 - 1` ms and a
one-shot timer with the delay `2^64 - 3` ms, both scheduled at clock 0, have
the deadlines -1 ms and -3 ms; three turns at clock 0 dispatch the deadlines
-3 ms, -1 ms and -2 ms, the last one being the repeating entry after `next`
has moved it 1 ms back.  And a one-shot timer scheduled at clock 10000001 with
the delay `2^64 - 1` ms, after the deadline 10 ms has been dispatched, is
dispatched next with the deadline 9000001. -/
theorem C3_counterexample :
    outputs insertionSorter timer.init
      [Op.schedule 0 18446744073709551615 true 1, Op.schedule 0 18446744073709551613 false 2,
       Op.loopIteration 0, Op.loopIteration 0, Op.loopIteration 0] =
      [Output.timerID 1, Output.timerID 2,
       Output.fired { m_ms := 18446744073709551613, m_timeout := -3000000, m_func := 2,
                      m_repeat := false, m_tid := 2 },
       Output.fired { m_ms := 18446744073709551615, m_timeout := -1000000, m_func := 1,
                      m_repeat := true, m_tid := 1 },
       Output.fired { m_ms := 18446744073709551615, m_timeout := -2000000, m_func := 1,
                      m_repeat := true, m_tid := 1 }] ∧
    ¬ (firedEntries (outputs insertionSorter timer.init
      [Op.schedule 0 18446744073709551615 true 1, Op.schedule 0 18446744073709551613 false 2,
       Op.loopIteration 0, Op.loopIteration 0, Op.loopIteration 0])).Pairwise
      (fun a b => a.m_timeout ≤ b.m_timeout) ∧
    outputs insertionSorter timer.init
      [Op.schedule 0 10 false 1, Op.loopIteration 10000001,
       Op.schedule 10000001 18446744073709551615 false 2, Op.loopIteration 10000002] =
      [Output.timerID 1,
       Output.fired { m_ms := 10, m_timeout := 10000000, m_func := 1, m_repeat := false,
                      m_tid := 1 },
       Output.timerID 2,
       Output.fired { m_ms := 18446744073709551615, m_timeout := 9000001, m_func := 2,
                      m_repeat := false, m_tid := 2 }] := by
  decide

/-- C4 (amended): let `schedule` have been called fewer than `2^64` times.  When
a loop turn pops a due repeating entry whose id is not the cancellation marker,
it dispatches the callback and leaves exactly one entry with the same id in the
deque, whose deadline is the signed 64-bit sum of the old deadline and the
interval of the entry; and once a repeating entry created at clock `t0` with
the delay `ms` has fired `n` times, it is queued, if at all, with the deadline
`t0 + (n + 1) * I` taken modulo `2^64` in the signed 64-bit range, `I` being
the interval.  Where the tick count `ms * 10^6` of the delay and the sums are
values of the signed 64-bit tick count, the interval is `ms * 10^6` ticks, the
new deadline is the old one plus `ms * 10^6`, and the deadline after `n`
firings is `t0 + (n + 1) * ms * 10^6`. -/
theorem C4_rearm (S : Sorter) :
    (∀ (ops : List Op) (now : HighTimePoint) (pair : TimerPair),
      scheduleCalls ops < ULONG_RANGE →
      (loopIteration S now (exec S timer.init ops)).popped = some pair →
      pair.second.m_repeat = true →
      pair.second.m_tid ≠ (exec S timer.init ops).deleteTid →
      (loopIteration S now (exec S timer.init ops)).fired = some pair.second ∧
      (loopIteration S now (exec S timer.init ops)).state.futureList =
        (exec S timer.init ops).futureList ++ [pair.second.m_func] ∧
      (loopIteration S now (exec S timer.init ops)).state.m_timerMap.filter
          (fun p => decide (p.second.m_tid = pair.second.m_tid)) =
        [{ first := wrapTicks (pair.second.m_timeout + milliseconds pair.second.m_ms)
           second := { pair.second with
                       m_timeout :=
                         wrapTicks (pair.second.m_timeout + milliseconds pair.second.m_ms) } }] ∧
      (fitsTicks ((pair.second.m_ms : Int) * ticksPerMs) →
        fitsTicks (pair.second.m_timeout + (pair.second.m_ms : Int) * ticksPerMs) →
        wrapTicks (pair.second.m_timeout + milliseconds pair.second.m_ms) =
          pair.second.m_timeout + (pair.second.m_ms : Int) * ticksPerMs)) ∧
    (∀ (pre post : List Op) (t0 : HighTimePoint) (ms f id : Nat),
      scheduleCalls (pre ++ Op.schedule t0 ms true f :: post) < ULONG_RANGE →
      id = (schedule S t0 ms true f (exec S timer.init pre)).2 →
      ∀ p ∈ (exec S timer.init (pre ++ Op.schedule t0 ms true f :: post)).m_timerMap,
        p.second.m_tid = id →
        p.second.m_timeout = wrapTicks (t0 +
          ((firedCount id (outputs S timer.init (pre ++ Op.schedule t0 ms true f :: post)) : Int)
            + 1) * milliseconds ms) ∧
        p.first = p.second.m_timeout ∧
        (fitsTicks ((ms : Int) * ticksPerMs) →
          fitsTicks (t0 +
            ((firedCount id (outputs S timer.init (pre ++ Op.schedule t0 ms true f :: post))
              : Int) + 1) * ((ms : Int) * ticksPerMs)) →
          p.second.m_timeout = t0 +
            ((firedCount id (outputs S timer.init (pre ++ Op.schedule t0 ms true f :: post))
              : Int) + 1) * ((ms : Int) * ticksPerMs))) ∧
    (∀ ms : Nat, fitsTicks ((ms : Int) * ticksPerMs) →
      milliseconds ms = (ms : Int) * ticksPerMs) := by
  refine ⟨?_, ?_, milliseconds_of_fits⟩
  · intro ops now pair hwrap hp hr hdel
    obtain ⟨rest, hm, hfired, hfl, hmap⟩ := loopIteration_repeat S now _ pair hp hdel hr
    have hn := (reachable_idsFresh S ops hwrap).1.1
    unfold queuedIds at hn
    rw [hm] at hn
    refine ⟨hfired, hfl, ?_, ?_⟩
    · rw [hmap]
      exact filter_tid_rearmed S pair rest hn
    · intro h1 h2
      rw [milliseconds_of_fits _ h1]
      exact wrapTicks_of_fits _ h2
  · intro pre post t0 ms f id hwrap hid
    have hcalls : scheduleCalls (pre ++ Op.schedule t0 ms true f :: post) =
        scheduleCalls pre + (1 + scheduleCalls post) := by
      rw [scheduleCalls_append, scheduleCalls_cons, scheduleCalls_schedule]
    rw [hcalls] at hwrap
    have hpre : scheduleCalls pre < ULONG_RANGE := by omega
    obtain ⟨hf0, hid0⟩ := reachable_idsFresh S pre hpre
    have hb1 : (exec S timer.init pre).id + scheduleCalls [Op.schedule t0 ms true f]
        < ULONG_RANGE := by
      rw [hid0, scheduleCalls_schedule]; omega
    have hidv : id = (exec S timer.init pre).id + 1 := by
      rw [hid, (schedule_fields S t0 ms true f _).2.1]
      rw [scheduleCalls_schedule] at hb1
      exact getId_of_lt hb1
    have hf1 := step_idsFresh S _ (Op.schedule t0 ms true f) hf0 hb1
    have hid1 := step_id S (exec S timer.init pre) (Op.schedule t0 ms true f) hb1
    rw [scheduleCalls_schedule] at hid1
    have hle1 : id ≤ (step S (exec S timer.init pre) (Op.schedule t0 ms true f)).id := by
      rw [hid1, hidv]
    have hb2 : (step S (exec S timer.init pre) (Op.schedule t0 ms true f)).id
        + scheduleCalls post < ULONG_RANGE := by
      rw [hid1, hid0]; omega
    have hinv1 : ∀ p ∈ (step S (exec S timer.init pre) (Op.schedule t0 ms true f)).m_timerMap,
        p.second.m_tid = id → p = armed t0 ms f id 0 := by
      intro q hq hqt
      rcases step_entries S _ _ q hq with h | ⟨now2, ms2, rpt2, f2, hop, hqe⟩ | ⟨e, ho, _, _⟩
      · have := (hf0.2 _ (mem_queuedIds_of_mem h)).2
        omega
      · injection hop with h1 h2 h3 h4
        rw [hqe, ← h1, ← h2, ← h3, ← h4]
        rw [scheduleCalls_schedule] at hb1
        simp [armed, TimePoint.create, getId_of_lt hb1, hidv]
      · simp [output] at ho
    have hfpre : firedCount id (outputs S timer.init pre) = 0 := by
      apply firedCount_eq_zero
      intro e he
      have := (fired_tid_le S timer.init pre init_idsFresh
        (by show 0 + scheduleCalls pre < ULONG_RANGE; omega) e he).2
      have h0 : timer.init.id = 0 := rfl
      rw [h0] at this
      omega
    have hcount : firedCount id (outputs S timer.init (pre ++ Op.schedule t0 ms true f :: post))
        = firedCount id (outputs S (step S (exec S timer.init pre) (Op.schedule t0 ms true f))
            post) := by
      rw [outputs_append, firedCount_append, hfpre, outputs_cons, firedCount_cons]
      have : firedCount id [output S (exec S timer.init pre) (Op.schedule t0 ms true f)] = 0 := by
        apply firedCount_single_of_not_fired
        intro e he
        simp [output] at he
      rw [this]
      omega
    have hexec : exec S timer.init (pre ++ Op.schedule t0 ms true f :: post) =
        exec S (step S (exec S timer.init pre) (Op.schedule t0 ms true f)) post := by
      rw [exec_append, exec_cons]
    intro p hp hpt
    rw [hexec] at hp
    have h := rearm_deadline S _ post t0 ms f id 0 hf1 hle1 hb2 hinv1 p hp hpt
    rw [Nat.zero_add, ← hcount] at h
    rw [h]
    refine ⟨rfl, rfl, ?_⟩
    intro h1 h2
    show wrapTicks (t0 + ((firedCount id (outputs S timer.init
      (pre ++ Op.schedule t0 ms true f :: post)) : Int) + 1) * milliseconds ms) = _
    rw [milliseconds_of_fits ms h1]
    exact wrapTicks_of_fits _ h2

/-- C4, on a timer repeating every 20 ms and a one-shot timer: after three
turns that fire the repeating one its queued deadline is 80 ms, and the turn
that fires it a fourth time re-arms it at 100 ms. -/
theorem C4_witness :
    scheduleCalls ([Op.schedule 0 500 false 2] ++ Op.schedule 0 20 true 1 ::
      [Op.loopIteration 20000001, Op.loopIteration 40000001, Op.loopIteration 60000001])
      < ULONG_RANGE ∧
    (exec insertionSorter timer.init ([Op.schedule 0 500 false 2] ++ Op.schedule 0 20 true 1 ::
      [Op.loopIteration 20000001, Op.loopIteration 40000001,
       Op.loopIteration 60000001])).m_timerMap =
      [{ first := 80000000
         second := { m_ms := 20, m_timeout := 80000000, m_func := 1, m_repeat := true,
                     m_tid := 2 } },
       { first := 500000000
         second := { m_ms := 500, m_timeout := 500000000, m_func := 2, m_repeat := false,
                     m_tid := 1 } }] ∧
    firedCount 2 (outputs insertionSorter timer.init
      ([Op.schedule 0 500 false 2] ++ Op.schedule 0 20 true 1 ::
        [Op.loopIteration 20000001, Op.loopIteration 40000001, Op.loopIteration 60000001])) = 3 ∧
    (80000000 : Int) = 0 + ((firedCount 2 (outputs insertionSorter timer.init
      ([Op.schedule 0 500 false 2] ++ Op.schedule 0 20 true 1 ::
        [Op.loopIteration 20000001, Op.loopIteration 40000001, Op.loopIteration 60000001])) : Int)
      + 1) * (((20 : Nat) : Int) * ticksPerMs) ∧
    ((loopIteration insertionSorter 80000001 (exec insertionSorter timer.init
      ([Op.schedule 0 500 false 2] ++ Op.schedule 0 20 true 1 ::
        [Op.loopIteration 20000001, Op.loopIteration 40000001,
         Op.loopIteration 60000001]))).state.m_timerMap.filter
        (fun p => decide (p.second.m_tid = 2))) =
      [{ first := wrapTicks (80000000 + milliseconds 20)
         second := { m_ms := 20, m_timeout := wrapTicks (80000000 + milliseconds 20),
                     m_func := 1, m_repeat := true, m_tid := 2 } }] ∧
    wrapTicks (80000000 + milliseconds 20) = 80000000 + ((20 : Nat) : Int) * ticksPerMs :=
  ⟨by decide, by decide, by decide,
    ((C4_rearm insertionSorter).2.1 [Op.schedule 0 500 false 2]
      [Op.loopIteration 20000001, Op.loopIteration 40000001, Op.loopIteration 60000001]
      0 20 1 2 (by decide) (by decide)
      { first := 80000000
        second := { m_ms := 20, m_timeout := 80000000, m_func := 1, m_repeat := true,
                    m_tid := 2 } }
      (by decide) (by decide)).2.2 (by decide) (by decide),
    ((C4_rearm insertionSorter).1
      ([Op.schedule 0 500 false 2] ++ Op.schedule 0 20 true 1 ::
        [Op.loopIteration 20000001, Op.loopIteration 40000001, Op.loopIteration 60000001])
      80000001
      { first := 80000000
        second := { m_ms := 20, m_timeout := 80000000, m_func := 1, m_repeat := true,
                    m_tid := 2 } }
      (by decide) (by decide) (by decide) (by decide)).2.2.1,
    ((C4_rearm insertionSorter).1
      ([Op.schedule 0 500 false 2] ++ Op.schedule 0 20 true 1 ::
        [Op.loopIteration 20000001, Op.loopIteration 40000001, Op.loopIteration 60000001])
      80000001
      { first := 80000000
        second := { m_ms := 20, m_timeout := 80000000, m_func := 1, m_repeat := true,
                    m_tid := 2 } }
      (by decide) (by decide) (by decide) (by decide)).2.2.2 (by decide) (by decide)⟩

/-- C4 as stated fails in the state reached by `wrapAround` followed by one more
`schedule` (clock 5): the repeating timer scheduled first has id 1 and so has
the new entry.  The turn at clock 1 pops the repeating entry, whose id is not
the marker 0, dispatches it and pushes it back, and the deque then holds two
entries with id 1.  It also fails for a repeating timer scheduled at clock 0
with the delay `2^64 - 1` ms: the delay converts to -1 ms, the entry is queued
with the deadline -1 ms and re-armed with the deadline -2 ms.  And it fails
for a repeating timer scheduled at clock 0 with the delay 9223372036855 ms,
whose tick count exceeds `2^63 - 1`: the entry is queued with the deadline
-9223372036854551616 and re-armed with the deadline 448384, which is neither
one nor two times `9223372036855 * 10^6`. -/
theorem C4_counterexample :
    (loopIteration insertionSorter 1 (exec insertionSorter timer.init
        (wrapAround true ++ [Op.schedule 5 0 false 9]))).popped =
      some { first := 0
             second := { m_ms := 0, m_timeout := 0, m_func := 7, m_repeat := true, m_tid := 1 } } ∧
    (exec insertionSorter timer.init
        (wrapAround true ++ [Op.schedule 5 0 false 9])).deleteTid = 0 ∧
    (loopIteration insertionSorter 1 (exec insertionSorter timer.init
        (wrapAround true ++ [Op.schedule 5 0 false 9]))).fired =
      some { m_ms := 0, m_timeout := 0, m_func := 7, m_repeat := true, m_tid := 1 } ∧
    (loopIteration insertionSorter 1 (exec insertionSorter timer.init
        (wrapAround true ++ [Op.schedule 5 0 false 9]))).state.m_timerMap.filter
        (fun p => decide (p.second.m_tid = 1)) =
      [{ first := 0
         second := { m_ms := 0, m_timeout := 0, m_func := 7, m_repeat := true, m_tid := 1 } },
       { first := 5
         second := { m_ms := 0, m_timeout := 5, m_func := 9, m_repeat := false, m_tid := 1 } }] ∧
    (exec insertionSorter timer.init
        [Op.schedule 0 18446744073709551615 true 1]).m_timerMap =
      [{ first := -1000000
         second := { m_ms := 18446744073709551615, m_timeout := -1000000, m_func := 1,
                     m_repeat := true, m_tid := 1 } }] ∧
    (exec insertionSorter timer.init
        [Op.schedule 0 18446744073709551615 true 1, Op.loopIteration 0]).m_timerMap =
      [{ first := -2000000
         second := { m_ms := 18446744073709551615, m_timeout := -2000000, m_func := 1,
                     m_repeat := true, m_tid := 1 } }] ∧
    (exec insertionSorter timer.init [Op.schedule 0 9223372036855 true 1]).m_timerMap =
      [{ first := -9223372036854551616
         second := { m_ms := 9223372036855, m_timeout := -9223372036854551616, m_func := 1,
                     m_repeat := true, m_tid := 1 } }] ∧
    (exec insertionSorter timer.init
        [Op.schedule 0 9223372036855 true 1, Op.loopIteration 0]).m_timerMap =
      [{ first := 448384
         second := { m_ms := 9223372036855, m_timeout := 448384, m_func := 1,
                     m_repeat := true, m_tid := 1 } }] ∧
    (0 : Int) + 2 * (((9223372036855 : Nat) : Int) * ticksPerMs) = 18446744073710000000 := by
  rw [exec_append, exec_wrapAround]
  exact ⟨by decide, by decide, by decide, by decide, by decide, by decide, by decide,
    by decide, by decide⟩

/-- C5 (amended): `is_running(id)` is true exactly when an entry with that id is
queued and leaves the state as it is; right after `schedule` has returned an id,
`is_running` of that id is true; and after the loop turn that fires a one-shot
entry, `is_running` of its id is false provided the queued ids were pairwise
distinct. -/
theorem C5_is_running (S : Sorter) (s : timer) (id : Nat) :
    (is_running id s = true ↔ id ∈ queuedIds s) ∧
    step S s (Op.is_running id) = s ∧
    output S s (Op.is_running id) = Output.running (is_running id s) ∧
    (∀ now ms rpt f,
      is_running (schedule S now ms rpt f s).2 (schedule S now ms rpt f s).1 = true) ∧
    (∀ now entry, (queuedIds s).Nodup → (loopIteration S now s).fired = some entry →
      entry.m_repeat = false → is_running entry.m_tid (loopIteration S now s).state = false) := by
  refine ⟨is_running_iff id s, rfl, rfl, ?_, ?_⟩
  · intro now ms rpt f
    rw [is_running_iff]
    apply (queuedIds_schedule S now ms rpt f s).symm.subset
    rw [(schedule_fields S now ms rpt f s).2.1]
    exact List.mem_append_right _ (List.mem_singleton_self _)
  · intro now entry hn hf hr
    rw [is_running_false_iff]
    rcases loopIteration_cases S now s with ⟨e, _⟩ | ⟨pair, rest, hm, _, _, _, e⟩ |
      ⟨pair, rest, hm, _, _, _, _, e⟩ | ⟨pair, rest, hm, _, _, _, hrep, e⟩
    · rw [e] at hf; exact absurd hf (by simp)
    · rw [e] at hf; exact absurd hf (by simp)
    · rw [e] at hf ⊢
      have hpe : pair.second = entry := by simpa using hf
      have hq : queuedIds s = pair.second.m_tid :: rest.map (fun p => p.second.m_tid) := by
        simp [queuedIds, hm]
      rw [hq, hpe] at hn
      exact (List.nodup_cons.1 hn).1
    · rw [e] at hf
      have hpe : pair.second = entry := by simpa using hf
      rw [hpe, hr] at hrep
      exact absurd hrep (by simp)

/-- C5, on the scenario of the specification: a one-shot timer is running right
after `schedule` and no longer running after the turn that fires it. -/
theorem C5_witness :
    (queuedIds (exec insertionSorter timer.init [Op.schedule 0 50 false 1])).Nodup ∧
    is_running 1 (exec insertionSorter timer.init [Op.schedule 0 50 false 1]) = true ∧
    (loopIteration insertionSorter 50000001
        (exec insertionSorter timer.init [Op.schedule 0 50 false 1])).fired =
      some { m_ms := 50, m_timeout := 50000000, m_func := 1, m_repeat := false, m_tid := 1 } ∧
    is_running 1 (loopIteration insertionSorter 50000001
        (exec insertionSorter timer.init [Op.schedule 0 50 false 1])).state = false :=
  ⟨by decide, by decide, by decide,
    (C5_is_running insertionSorter (exec insertionSorter timer.init [Op.schedule 0 50 false 1])
      1).2.2.2.2 50000001
      { m_ms := 50, m_timeout := 50000000, m_func := 1, m_repeat := false, m_tid := 1 }
      (by decide) (by decide) rfl⟩

/-- C5 as stated fails in the state reached by `wrapAround` followed by one more
`schedule` (clock 5): two one-shot entries with id 1 are queued; the turn at
clock 1 fires the one with deadline 0, and `is_running(1)` is still true. -/
theorem C5_counterexample :
    (loopIteration insertionSorter 1 (exec insertionSorter timer.init
        (wrapAround false ++ [Op.schedule 5 0 false 9]))).fired =
      some { m_ms := 0, m_timeout := 0, m_func := 7, m_repeat := false, m_tid := 1 } ∧
    is_running 1 (loopIteration insertionSorter 1 (exec insertionSorter timer.init
        (wrapAround false ++ [Op.schedule 5 0 false 9]))).state = true := by
  rw [exec_append, exec_wrapAround]
  exact ⟨by decide, by decide⟩

/-- C6 (amended): in every state reached with fewer than `2^64` calls of
`schedule`, and for every id, `is_running(id)` is false right after
`stopTimer(id)`, and the deque then holds exactly the entries with a different
id, unchanged and in their previous order. -/
theorem C6_stop_removes (S : Sorter) (ops : List Op) (id : Nat)
    (hwrap : scheduleCalls ops < ULONG_RANGE) :
    is_running id (stopTimer id (exec S timer.init ops)) = false ∧
    (stopTimer id (exec S timer.init ops)).m_timerMap =
      (exec S timer.init ops).m_timerMap.filter (fun pair => decide (pair.second.m_tid ≠ id)) := by
  have hn := (reachable_idsFresh S ops hwrap).1.1
  have hq : (stopTimer id (exec S timer.init ops)).m_timerMap =
      (exec S timer.init ops).m_timerMap.filter (fun pair => decide (pair.second.m_tid ≠ id)) :=
    eraseP_eq_filter id _ hn
  refine ⟨?_, hq⟩
  rw [is_running_false_iff, queuedIds_stopTimer]
  exact fun h => (List.Nodup.mem_erase_iff hn).1 h |>.1 rfl

/-- C6, on three queued timers: stopping the middle one keeps the other two. -/
theorem C6_witness :
    scheduleCalls [Op.schedule 0 10 false 1, Op.schedule 0 5 true 2, Op.schedule 0 7 false 3]
      < ULONG_RANGE ∧
    queuedIds (exec insertionSorter timer.init
      [Op.schedule 0 10 false 1, Op.schedule 0 5 true 2, Op.schedule 0 7 false 3]) = [2, 3, 1] ∧
    queuedIds (stopTimer 3 (exec insertionSorter timer.init
      [Op.schedule 0 10 false 1, Op.schedule 0 5 true 2, Op.schedule 0 7 false 3])) = [2, 1] ∧
    is_running 3 (stopTimer 3 (exec insertionSorter timer.init
      [Op.schedule 0 10 false 1, Op.schedule 0 5 true 2, Op.schedule 0 7 false 3])) = false :=
  ⟨by decide, by decide, by decide,
    (C6_stop_removes insertionSorter
      [Op.schedule 0 10 false 1, Op.schedule 0 5 true 2, Op.schedule 0 7 false 3] 3
      (by decide)).1⟩

/-- C6 as stated fails in the state reached by `wrapAround` followed by one more
`schedule`: two entries with id 1 are queued, `stopTimer(1)` erases the first
of them only, and `is_running(1)` is still true. -/
theorem C6_counterexample :
    queuedIds (stopTimer 1 (exec insertionSorter timer.init
      (wrapAround false ++ [Op.schedule 5 0 false 9]))) = [1] ∧
    is_running 1 (stopTimer 1 (exec insertionSorter timer.init
      (wrapAround false ++ [Op.schedule 5 0 false 9]))) = true := by
  rw [exec_append, exec_wrapAround]
  exact ⟨by decide, by decide⟩

/-- C7 (amended): for every state and every id that is not queued, `stopTimer(id)`
returns, leaves the deque unchanged and changes nothing but the cancellation
marker, which becomes `id`.  If moreover `id` and the previous marker are at
most the id counter (issued ids, or 0) and the previous marker is not queued,
then, as long as the counter does not wrap, every later call returns and
dispatches what it would have without the `stopTimer` call, and the two runs
differ at most in the marker. -/
theorem C7_stop_absent (S : Sorter) (s : timer) (id : Nat) (habs : id ∉ queuedIds s) :
    stopTimer id s = { s with deleteTid := id } ∧
    (∀ ops, id ≤ s.id → s.deleteTid ≤ s.id → s.deleteTid ∉ queuedIds s →
      s.id + scheduleCalls ops < ULONG_RANGE →
      outputs S (stopTimer id s) ops = outputs S s ops ∧
      SameButMarker (exec S s ops) (exec S (stopTimer id s) ops)) := by
  have hst := stopTimer_absent id s habs
  refine ⟨hst, ?_⟩
  intro ops hle hdle hdabs hb
  have hrel : MarkerRel s (stopTimer id s) := by
    right
    rw [hst]
    exact ⟨rfl, hdabs, hdle, habs, hle⟩
  obtain ⟨ho, hr⟩ := markerRel_exec S s (stopTimer id s) ops hrel hb
  exact ⟨ho.symm, markerRel_same _ _ hr⟩

/-- C7, on an id that has already fired: stopping it once more changes no later
output. -/
theorem C7_witness :
    1 ∉ queuedIds (exec insertionSorter timer.init
      [Op.schedule 0 5 false 1, Op.loopIteration 5000001]) ∧
    outputs insertionSorter (exec insertionSorter timer.init
        [Op.schedule 0 5 false 1, Op.loopIteration 5000001])
      [Op.schedule 6000000 5 false 2, Op.loopIteration 11000001] =
      [Output.timerID 2,
       Output.fired { m_ms := 5, m_timeout := 11000000, m_func := 2, m_repeat := false,
                      m_tid := 2 }] ∧
    outputs insertionSorter (stopTimer 1 (exec insertionSorter timer.init
        [Op.schedule 0 5 false 1, Op.loopIteration 5000001]))
      [Op.schedule 6000000 5 false 2, Op.loopIteration 11000001] =
    outputs insertionSorter (exec insertionSorter timer.init
        [Op.schedule 0 5 false 1, Op.loopIteration 5000001])
      [Op.schedule 6000000 5 false 2, Op.loopIteration 11000001] :=
  ⟨by decide, by decide,
    ((C7_stop_absent insertionSorter (exec insertionSorter timer.init
        [Op.schedule 0 5 false 1, Op.loopIteration 5000001]) 1 (by decide)).2
      [Op.schedule 6000000 5 false 2, Op.loopIteration 11000001]
      (by decide) (by decide) (by decide) (by decide)).1⟩

/-- C7 as stated fails in the initial state with the id 1, which is not queued
because it has never been issued: after `stopTimer(1)` the timer scheduled next
gets id 1 and is discarded when it is due, while without the call it is
dispatched. -/
theorem C7_counterexample :
    1 ∉ queuedIds timer.init ∧
    (stopTimer 1 timer.init).m_timerMap = timer.init.m_timerMap ∧
    outputs insertionSorter (stopTimer 1 timer.init)
      [Op.schedule 0 0 false 7, Op.loopIteration 1] = [Output.timerID 1, Output.silent] ∧
    outputs insertionSorter timer.init
      [Op.schedule 0 0 false 7, Op.loopIteration 1] =
      [Output.timerID 1,
       Output.fired { m_ms := 0, m_timeout := 0, m_func := 7, m_repeat := false, m_tid := 1 }] :=
  ⟨by decide, by decide, by decide, by decide⟩

/-- C8 (amended): as long as `schedule` has been called fewer than `2^64` times,
every id it returns is non-zero and strictly greater than every id returned
earlier, so no id is returned twice. -/
theorem C8_ids_increase_before_wrap (S : Sorter) (ops : List Op)
    (hwrap : scheduleCalls ops < ULONG_RANGE) :
    (∀ i ∈ returnedIds (outputs S timer.init ops), i ≠ 0) ∧
    (returnedIds (outputs S timer.init ops)).Pairwise (fun a b => a < b) ∧
    (returnedIds (outputs S timer.init ops)).Nodup := by
  have h := returnedIds_range S timer.init ops
    (by show 0 + scheduleCalls ops < ULONG_RANGE; omega)
  rw [h]
  refine ⟨?_, List.pairwise_lt_range' _ _, List.nodup_range' _ _⟩
  intro i hi
  have := (List.mem_range'_1.1 hi).1
  have h0 : timer.init.id = 0 := rfl
  omega

/-- C8, on three calls: the ids are 1, 2, 3. -/
theorem C8_witness :
    scheduleCalls [Op.schedule 0 5 false 1, Op.schedule 0 0 true 2, Op.stopTimer 1,
      Op.schedule 3 1 false 3] < ULONG_RANGE ∧
    returnedIds (outputs insertionSorter timer.init
      [Op.schedule 0 5 false 1, Op.schedule 0 0 true 2, Op.stopTimer 1,
       Op.schedule 3 1 false 3]) = [1, 2, 3] ∧
    (returnedIds (outputs insertionSorter timer.init
      [Op.schedule 0 5 false 1, Op.schedule 0 0 true 2, Op.stopTimer 1,
       Op.schedule 3 1 false 3])).Pairwise (fun a b => a < b) :=
  ⟨by decide, by decide,
    (C8_ids_increase_before_wrap insertionSorter
      [Op.schedule 0 5 false 1, Op.schedule 0 0 true 2, Op.stopTimer 1,
       Op.schedule 3 1 false 3] (by decide)).2.1⟩

/-- C8 as stated fails on the trace `wrapAround` followed by one more
`schedule`: the first call returns 1, the calls of `wrapAround` return
`1, 2, …, 2^64 - 1, 0`, and the last call returns 1 again, so the returned ids
are neither all non-zero nor increasing, and 1 is returned twice. -/
theorem C8_counterexample :
    returnedIds (outputs insertionSorter
      (exec insertionSorter timer.init (wrapAround false)) [Op.schedule 5 0 false 9]) = [1] ∧
    ¬ (returnedIds (outputs insertionSorter timer.init
        (wrapAround false ++ [Op.schedule 5 0 false 9]))).Pairwise (fun a b => a < b) ∧
    ¬ (returnedIds (outputs insertionSorter timer.init
        (wrapAround false ++ [Op.schedule 5 0 false 9]))).Nodup := by
  have hlast : returnedIds (outputs insertionSorter (held false 0 0)
      [Op.schedule 5 0 false 9]) = [1] := by decide
  have hfirst : 1 ∈ returnedIds (outputs insertionSorter timer.init (wrapAround false)) := by
    have := wrapAround_first_id false []
    rwa [List.append_nil] at this
  rw [outputs_append, returnedIds_append, exec_wrapAround, hlast]
  refine ⟨rfl, ?_, ?_⟩
  · intro hp
    have := (List.pairwise_append.1 hp).2.2 1 hfirst 1 (List.mem_singleton_self 1)
    omega
  · intro hn
    exact (List.nodup_append.1 hn).2.2 hfirst (List.mem_singleton_self 1)

/-- C9: the deque is sorted ascending by deadline in every reachable state, and
each of the calls, one loop turn included, leaves a sorted deque sorted. -/
theorem C9_queue_sorted (S : Sorter) :
    (∀ ops, SortedByTimeout (exec S timer.init ops).m_timerMap) ∧
    (∀ s op, SortedByTimeout s.m_timerMap → SortedByTimeout (step S s op).m_timerMap) :=
  ⟨fun ops => exec_sorted S timer.init ops init_sorted, fun s op h => step_sorted S s op h⟩

/-- C9, on a state with a due repeating entry at the front: the re-armed entry
is sorted back behind the other one. -/
theorem C9_witness :
    SortedByTimeout (exec insertionSorter timer.init
      [Op.schedule 0 2 true 1, Op.schedule 0 3 false 2]).m_timerMap ∧
    (step insertionSorter (exec insertionSorter timer.init
      [Op.schedule 0 2 true 1, Op.schedule 0 3 false 2]) (Op.loopIteration 2500000)).m_timerMap =
      [{ first := 3000000
         second := { m_ms := 3, m_timeout := 3000000, m_func := 2, m_repeat := false, m_tid := 2 } },
       { first := 4000000
         second := { m_ms := 2, m_timeout := 4000000, m_func := 1, m_repeat := true, m_tid := 1 } }] ∧
    SortedByTimeout (step insertionSorter (exec insertionSorter timer.init
      [Op.schedule 0 2 true 1, Op.schedule 0 3 false 2]) (Op.loopIteration 2500000)).m_timerMap :=
  ⟨(C9_queue_sorted insertionSorter).1 _, by decide,
    (C9_queue_sorted insertionSorter).2 _ _ ((C9_queue_sorted insertionSorter).1 _)⟩

/-- C10 (amended): in every state reached with fewer than `2^64` calls of
`schedule`, the deque holds at most one entry with any given id. -/
theorem C10_unique_ids_before_wrap (S : Sorter) (ops : List Op)
    (hwrap : scheduleCalls ops < ULONG_RANGE) :
    (queuedIds (exec S timer.init ops)).Nodup :=
  (reachable_idsFresh S ops hwrap).1.1

/-- C10, on a trace that re-arms a repeating entry. -/
theorem C10_witness :
    scheduleCalls [Op.schedule 0 2 true 1, Op.schedule 0 3 false 2, Op.loopIteration 2500000]
      < ULONG_RANGE ∧
    queuedIds (exec insertionSorter timer.init
      [Op.schedule 0 2 true 1, Op.schedule 0 3 false 2, Op.loopIteration 2500000]) = [2, 1] ∧
    (queuedIds (exec insertionSorter timer.init
      [Op.schedule 0 2 true 1, Op.schedule 0 3 false 2, Op.loopIteration 2500000])).Nodup :=
  ⟨by decide, by decide, C10_unique_ids_before_wrap insertionSorter _ (by decide)⟩

/-- C10 as stated fails in the state reached by `wrapAround` followed by one
more `schedule` (clock 5): the timer scheduled first is still queued with id 1, the
counter has come back to 0, and the new entry gets id 1 as well. -/
theorem C10_counterexample :
    queuedIds (exec insertionSorter timer.init
      (wrapAround false ++ [Op.schedule 5 0 false 9])) = [1, 1] ∧
    ¬ (queuedIds (exec insertionSorter timer.init
      (wrapAround false ++ [Op.schedule 5 0 false 9]))).Nodup := by
  rw [exec_append, exec_wrapAround]
  exact ⟨by decide, by decide⟩

/-! ## Shutdown, due checks and the marker branch -/

theorem step_done (S : Sorter) (s : timer) (op : Op) (h : s.done = true) :
    (step S s op).done = true := by
  cases op with
  | schedule now ms rpt f => exact h
  | stopTimer tid => exact h
  | is_running tid => exact h
  | loopIteration now => exact (loopIteration_fields S now s).2.2.trans h
  | shutDown => rfl

theorem exec_done (S : Sorter) (s : timer) (ops : List Op) (h : s.done = true) :
    (exec S s ops).done = true := by
  induction ops generalizing s with
  | nil => exact h
  | cons op ops ih => exact ih (step S s op) (step_done S s op h)

theorem loopIteration_done (S : Sorter) (now : HighTimePoint) (s : timer) (h : s.done = true) :
    loopIteration S now s =
      { state := { s with notifyNewTimeout := false }, popped := none, fired := none,
        exited := true } := by
  unfold loopIteration
  rw [loopIteration_flag]
  simp [h]

/-- A turn that does not pop leaves everything but the new-deadline flag. -/
theorem loopIteration_idle (S : Sorter) (now : HighTimePoint) (s : timer)
    (h : s.m_timerMap = [] ∨
      ∃ pair rest, s.m_timerMap = pair :: rest ∧ ¬ pair.second.m_timeout < now) :
    (loopIteration S now s).state = { s with notifyNewTimeout := false } ∧
    (loopIteration S now s).popped = none ∧
    (loopIteration S now s).fired = none := by
  rcases loopIteration_cases S now s with ⟨e, _⟩ | ⟨p, r, hm, _, hdue, _, _⟩ |
    ⟨p, r, hm, _, hdue, _, _, _⟩ | ⟨p, r, hm, _, hdue, _, _, _⟩
  · rw [e]; exact ⟨rfl, rfl, rfl⟩
  all_goals
    rcases h with h | ⟨pair, rest, h, hnd⟩
    · rw [h] at hm; exact absurd hm (by simp)
    · rw [h] at hm
      have hp : pair = p := (List.cons.inj hm).1
      exact absurd (hp ▸ hdue) hnd

/-- A popped entry whose id is the marker is dropped. -/
theorem loopIteration_marked (S : Sorter) (now : HighTimePoint) (s : timer) (pair : TimerPair)
    (hp : (loopIteration S now s).popped = some pair)
    (hm : pair.second.m_tid = s.deleteTid) :
    ∃ rest, s.m_timerMap = pair :: rest ∧
      loopIteration S now s =
        { state := { s with notifyNewTimeout := false, m_timerMap := rest }
          popped := some pair, fired := none, exited := false } := by
  rcases loopIteration_cases S now s with ⟨e, _⟩ | ⟨p, r, hm2, _, _, _, e⟩ |
    ⟨p, r, hm2, _, _, hdel, _, e⟩ | ⟨p, r, hm2, _, _, hdel, _, e⟩
  · rw [e] at hp; exact absurd hp (by simp)
  · rw [e] at hp
    have : p = pair := by simpa using hp
    subst this
    exact ⟨r, hm2, e⟩
  · rw [e] at hp
    have : p = pair := by simpa using hp
    exact absurd (this ▸ hm) hdel
  · rw [e] at hp
    have : p = pair := by simpa using hp
    exact absurd (this ▸ hm) hdel

/-! ## Keys and deadlines -/

theorem step_keysMatch (S : Sorter) (s : timer) (op : Op) (h : KeysMatch s.m_timerMap) :
    KeysMatch (step S s op).m_timerMap := by
  intro q hq
  rcases step_entries S s op q hq with h1 | ⟨now, ms, rpt, f, _, hqe⟩ | ⟨e, _, _, hqe⟩
  · exact h q h1
  · rw [hqe]
  · rw [hqe]

theorem exec_keysMatch (S : Sorter) (s : timer) (ops : List Op) (h : KeysMatch s.m_timerMap) :
    KeysMatch (exec S s ops).m_timerMap := by
  induction ops generalizing s with
  | nil => exact h
  | cons op ops ih => exact ih (step S s op) (step_keysMatch S s op h)

theorem init_keysMatch : KeysMatch timer.init.m_timerMap :=
  fun p hp => absurd hp (List.not_mem_nil p)

/-- C12: once `shutDown` has set `done`, whatever calls come in between, the next
loop turn is terminal: it leaves the loop, pops no entry, dispatches nothing and
leaves the deque and the in-flight tasks as they are, also when the front entry
is due; this holds for every state, with no or with many pending entries. -/
theorem C12_shutdown_terminal (S : Sorter) (s : timer) (ops : List Op) (now : HighTimePoint) :
    (shutDown s).done = true ∧
    (shutDown s).m_timerMap = s.m_timerMap ∧
    (exec S (shutDown s) ops).done = true ∧
    (loopIteration S now (exec S (shutDown s) ops)).exited = true ∧
    (loopIteration S now (exec S (shutDown s) ops)).popped = none ∧
    (loopIteration S now (exec S (shutDown s) ops)).fired = none ∧
    (loopIteration S now (exec S (shutDown s) ops)).state.m_timerMap =
      (exec S (shutDown s) ops).m_timerMap ∧
    (loopIteration S now (exec S (shutDown s) ops)).state.futureList =
      (exec S (shutDown s) ops).futureList := by
  have hd : (exec S (shutDown s) ops).done = true := exec_done S (shutDown s) ops rfl
  rw [loopIteration_done S now _ hd]
  exact ⟨rfl, rfl, hd, rfl, rfl, rfl, rfl, rfl⟩

/-- C12, on two pending timers of which the first is long due: the turn after
`shutDown` leaves the loop and the deque keeps both entries. -/
theorem C12_witness :
    (loopIteration insertionSorter 9000000 (exec insertionSorter (shutDown
        (exec insertionSorter timer.init [Op.schedule 0 1 false 1, Op.schedule 0 2 true 2]))
        [])).exited = true ∧
    (loopIteration insertionSorter 9000000 (exec insertionSorter (shutDown
        (exec insertionSorter timer.init [Op.schedule 0 1 false 1, Op.schedule 0 2 true 2]))
        [])).fired = none ∧
    queuedIds (loopIteration insertionSorter 9000000 (exec insertionSorter (shutDown
        (exec insertionSorter timer.init [Op.schedule 0 1 false 1, Op.schedule 0 2 true 2]))
        [])).state = [1, 2] ∧
    (loopIteration insertionSorter 9000000
        (exec insertionSorter timer.init [Op.schedule 0 1 false 1, Op.schedule 0 2 true 2])).fired =
      some { m_ms := 1, m_timeout := 1000000, m_func := 1, m_repeat := false, m_tid := 1 } :=
  ⟨(C12_shutdown_terminal insertionSorter
      (exec insertionSorter timer.init [Op.schedule 0 1 false 1, Op.schedule 0 2 true 2])
      [] 9000000).2.2.2.1,
    (C12_shutdown_terminal insertionSorter
      (exec insertionSorter timer.init [Op.schedule 0 1 false 1, Op.schedule 0 2 true 2])
      [] 9000000).2.2.2.2.2.1,
    by decide, by decide⟩

/-- C13: a loop turn dispatches only an entry that stood at the front of the
deque with a deadline strictly earlier than the clock value the turn read; when
the deque is empty or the deadline of the front entry has not passed, the turn
leaves the deque unchanged, pops nothing and dispatches nothing. -/
theorem C13_never_early (S : Sorter) (s : timer) (now : HighTimePoint) :
    (∀ e, (loopIteration S now s).fired = some e →
      e.m_timeout < now ∧ ∃ pair rest, s.m_timerMap = pair :: rest ∧ pair.second = e) ∧
    ((s.m_timerMap = [] ∨
        ∃ pair rest, s.m_timerMap = pair :: rest ∧ ¬ pair.second.m_timeout < now) →
      (loopIteration S now s).state.m_timerMap = s.m_timerMap ∧
      (loopIteration S now s).state.futureList = s.futureList ∧
      (loopIteration S now s).popped = none ∧
      (loopIteration S now s).fired = none) := by
  constructor
  · intro e he
    obtain ⟨pair, hp, hpe, _⟩ := fired_is_popped S now s e he
    obtain ⟨rest, hm, hdue, _⟩ := popped_is_front S now s pair hp
    exact ⟨hpe ▸ hdue, pair, rest, hm, hpe⟩
  · intro h
    obtain ⟨hs, hp, hf⟩ := loopIteration_idle S now s h
    rw [hs]
    exact ⟨rfl, rfl, hp, hf⟩

/-- C13, on a timer of 5 ms: the turn at exactly 5 ms does nothing, the turn one
tick later fires. -/
theorem C13_witness :
    (exec insertionSorter timer.init [Op.schedule 0 5 false 1]).m_timerMap =
      [{ first := 5000000
         second := { m_ms := 5, m_timeout := 5000000, m_func := 1, m_repeat := false,
                     m_tid := 1 } }] ∧
    (loopIteration insertionSorter 5000000
      (exec insertionSorter timer.init [Op.schedule 0 5 false 1])).fired = none ∧
    (loopIteration insertionSorter 5000000
      (exec insertionSorter timer.init [Op.schedule 0 5 false 1])).state.m_timerMap =
      (exec insertionSorter timer.init [Op.schedule 0 5 false 1]).m_timerMap ∧
    (loopIteration insertionSorter 5000001
      (exec insertionSorter timer.init [Op.schedule 0 5 false 1])).fired =
      some { m_ms := 5, m_timeout := 5000000, m_func := 1, m_repeat := false, m_tid := 1 } ∧
    ({ m_ms := 5, m_timeout := 5000000, m_func := 1, m_repeat := false, m_tid := 1 } :
        TimePoint).m_timeout < 5000001 :=
  ⟨by decide,
    ((C13_never_early insertionSorter
      (exec insertionSorter timer.init [Op.schedule 0 5 false 1]) 5000000).2
      (Or.inr ⟨{ first := 5000000
                 second := { m_ms := 5, m_timeout := 5000000, m_func := 1, m_repeat := false,
                             m_tid := 1 } }, [], by decide, by decide⟩)).2.2.2,
    ((C13_never_early insertionSorter
      (exec insertionSorter timer.init [Op.schedule 0 5 false 1]) 5000000).2
      (Or.inr ⟨{ first := 5000000
                 second := { m_ms := 5, m_timeout := 5000000, m_func := 1, m_repeat := false,
                             m_tid := 1 } }, [], by decide, by decide⟩)).1,
    by decide,
    ((C13_never_early insertionSorter
      (exec insertionSorter timer.init [Op.schedule 0 5 false 1]) 5000001).1
      { m_ms := 5, m_timeout := 5000000, m_func := 1, m_repeat := false, m_tid := 1 }
      (by decide)).1⟩

/-- C15: when a loop turn pops a due entry whose id equals the cancellation
marker, the entry is dropped: nothing is dispatched, the deque is left with the
entries behind it (the entry is not re-armed or pushed back, repeating or not),
and the in-flight tasks, the reaper flag and the marker keep their values. -/
theorem C15_marked_entry_discarded (S : Sorter) (s : timer) (now : HighTimePoint)
    (pair : TimerPair) (hp : (loopIteration S now s).popped = some pair)
    (hm : pair.second.m_tid = s.deleteTid) :
    (loopIteration S now s).fired = none ∧
    pair :: (loopIteration S now s).state.m_timerMap = s.m_timerMap ∧
    (loopIteration S now s).state.futureList = s.futureList ∧
    (loopIteration S now s).state.taskCleanupStarted = s.taskCleanupStarted ∧
    (loopIteration S now s).state.deleteTid = s.deleteTid := by
  obtain ⟨rest, hq, e⟩ := loopIteration_marked S now s pair hp hm
  rw [e, hq]
  exact ⟨rfl, rfl, rfl, rfl, rfl⟩

/-- C15, on a repeating timer whose id was passed to `stopTimer` before it was
issued: the turn pops it and dispatches nothing, and the deque is empty. -/
theorem C15_witness :
    (loopIteration insertionSorter 1 (exec insertionSorter timer.init
        [Op.stopTimer 1, Op.schedule 0 0 true 7])).popped =
      some { first := 0
             second := { m_ms := 0, m_timeout := 0, m_func := 7, m_repeat := true, m_tid := 1 } } ∧
    (exec insertionSorter timer.init [Op.stopTimer 1, Op.schedule 0 0 true 7]).deleteTid = 1 ∧
    (loopIteration insertionSorter 1 (exec insertionSorter timer.init
        [Op.stopTimer 1, Op.schedule 0 0 true 7])).state.m_timerMap = [] ∧
    (loopIteration insertionSorter 1 (exec insertionSorter timer.init
        [Op.stopTimer 1, Op.schedule 0 0 true 7])).fired = none :=
  ⟨by decide, by decide, by decide,
    (C15_marked_entry_discarded insertionSorter
      (exec insertionSorter timer.init [Op.stopTimer 1, Op.schedule 0 0 true 7]) 1
      { first := 0
        second := { m_ms := 0, m_timeout := 0, m_func := 7, m_repeat := true, m_tid := 1 } }
      (by decide) (by decide)).1⟩

/-- C18: in every reachable state the key stored in every queued pair equals
the deadline of the entry it points to, also after a repeating entry has been
re-armed and pushed back; so the wake-up time the loop takes from the front
pair is the deadline of the front entry. -/
theorem C18_key_is_deadline (S : Sorter) (ops : List Op) :
    (∀ p ∈ (exec S timer.init ops).m_timerMap, p.first = p.second.m_timeout) ∧
    (∀ now pair rest, (exec S timer.init ops).m_timerMap = pair :: rest →
      wakeTime now (exec S timer.init ops) = pair.second.m_timeout) := by
  have h := exec_keysMatch S timer.init ops init_keysMatch
  refine ⟨h, ?_⟩
  intro now pair rest hm
  unfold wakeTime
  rw [hm]
  exact h pair (by rw [hm]; exact List.mem_cons_self _ _)

/-- C18, on a repeating timer of 2 ms that has fired once: the key of the pair
pushed back is the new deadline, 4 ms. -/
theorem C18_witness :
    (exec insertionSorter timer.init
      [Op.schedule 0 2 true 1, Op.loopIteration 2000001]).m_timerMap =
      [{ first := 4000000
         second := { m_ms := 2, m_timeout := 4000000, m_func := 1, m_repeat := true,
                     m_tid := 1 } }] ∧
    wakeTime 2000001 (exec insertionSorter timer.init
      [Op.schedule 0 2 true 1, Op.loopIteration 2000001]) = 4000000 :=
  ⟨by decide,
    ((C18_key_is_deadline insertionSorter
      [Op.schedule 0 2 true 1, Op.loopIteration 2000001]).2 2000001
      { first := 4000000
        second := { m_ms := 2, m_timeout := 4000000, m_func := 1, m_repeat := true,
                    m_tid := 1 } } [] (by decide)).trans rfl⟩

/-! ## What `schedule` inserts and signals -/

theorem schedule_nonempty (S : Sorter) (now : HighTimePoint) (ms : Nat) (rpt : Bool) (f : Nat)
    (s : timer) :
    ∃ pair rest, (schedule S now ms rpt f s).1.m_timerMap = pair :: rest ∧
      rest.length = s.m_timerMap.length := by
  have hl := (S.perm (s.m_timerMap ++
    [{ first := (TimePoint.create now f ms rpt s.id).m_timeout, second :=
            TimePoint.create now f ms rpt s.id }])).length_eq
  rw [schedule_map]
  cases hsort : S.sort (s.m_timerMap ++
    [{ first := (TimePoint.create now f ms rpt s.id).m_timeout, second :=
            TimePoint.create now f ms rpt s.id }]) with
  | nil => rw [hsort] at hl; simp at hl
  | cons pair rest =>
    rw [hsort] at hl
    refine ⟨pair, rest, rfl, ?_⟩
    simp only [List.length_cons, List.length_append, List.length_nil] at hl
    omega

theorem schedule_notify (S : Sorter) (now : HighTimePoint) (ms : Nat) (rpt : Bool) (f : Nat)
    (s : timer) (pair : TimerPair) (rest : List TimerPair)
    (hm : (schedule S now ms rpt f s).1.m_timerMap = pair :: rest) :
    (schedule S now ms rpt f s).1.notifyNewTimeout =
      (if pair.second.m_tid = (schedule S now ms rpt f s).2 ∧ rest ≠ [] then true
       else s.notifyNewTimeout) := by
  have hm2 : S.sort (s.m_timerMap ++
      [{ first := (TimePoint.create now f ms rpt s.id).m_timeout,
         second := TimePoint.create now f ms rpt s.id }]) = pair :: rest := hm
  have hlen : (pair :: rest).length ≠ 1 ↔ rest ≠ [] := by
    cases rest <;> simp
  simp only [schedule, hm2, hlen]

theorem schedule_front_new (S : Sorter) (now : HighTimePoint) (ms : Nat) (rpt : Bool) (f : Nat)
    (s : timer) (pair : TimerPair) (rest : List TimerPair)
    (hm : (schedule S now ms rpt f s).1.m_timerMap = pair :: rest)
    (hfresh : getId s.id ∉ queuedIds s) :
    pair.second.m_tid = (schedule S now ms rpt f s).2 ↔
      pair = { first := (TimePoint.create now f ms rpt s.id).m_timeout, second :=
            TimePoint.create now f ms rpt s.id } := by
  rw [schedule_map] at hm
  have hmem : pair ∈ s.m_timerMap ++
      [{ first := (TimePoint.create now f ms rpt s.id).m_timeout, second :=
            TimePoint.create now f ms rpt s.id }] :=
    (S.perm _).subset (by rw [hm]; exact List.mem_cons_self _ _)
  constructor
  · intro ht
    rcases List.mem_append.1 hmem with h | h
    · have ht2 : pair.second.m_tid = getId s.id := ht
      have hq := mem_queuedIds_of_mem h
      rw [ht2] at hq
      exact absurd hq hfresh
    · simpa using h
  · intro hp
    rw [hp]
    rfl

theorem schedule_earliest_front (S : Sorter) (now : HighTimePoint) (ms : Nat) (rpt : Bool)
    (f : Nat) (s : timer) (pair : TimerPair) (rest : List TimerPair)
    (hm : (schedule S now ms rpt f s).1.m_timerMap = pair :: rest)
    (hearly : ∀ p ∈ s.m_timerMap,
      (TimePoint.create now f ms rpt s.id).m_timeout < p.second.m_timeout) :
    pair = { first := (TimePoint.create now f ms rpt s.id).m_timeout, second :=
            TimePoint.create now f ms rpt s.id } := by
  rw [schedule_map] at hm
  have hperm := S.perm (s.m_timerMap ++
    [{ first := (TimePoint.create now f ms rpt s.id).m_timeout, second :=
            TimePoint.create now f ms rpt s.id }])
  have hsorted := S.sorted (s.m_timerMap ++
    [{ first := (TimePoint.create now f ms rpt s.id).m_timeout, second :=
            TimePoint.create now f ms rpt s.id }])
  rw [hm] at hperm hsorted
  have hpair := hperm.subset (List.mem_cons_self pair rest)
  have hnew : ({ first := (TimePoint.create now f ms rpt s.id).m_timeout,
                 second := TimePoint.create now f ms rpt s.id } : TimerPair) ∈ pair :: rest :=
    hperm.symm.subset (List.mem_append_right _ (List.mem_singleton_self _))
  rcases List.mem_append.1 hpair with h | h
  · have h1 := hearly pair h
    have h2 : pair.second.m_timeout ≤ (TimePoint.create now f ms rpt s.id).m_timeout :=
      sorted_head_le hsorted _ hnew
    linarith
  · simpa using h

/-- C11 (amended): `schedule` never rejects a delay.  For every state and every
delay it returns the next id and inserts exactly one pair for it, whose deadline
is the signed 64-bit sum of the clock value at creation and the interval
`std::chrono::milliseconds` makes of the delay.  For a delay `ms` such that
`ms * 10^6` and the creation time plus `ms * 10^6` are values of the signed
64-bit tick count, the deadline is the creation time plus the delay and not
earlier than the creation time. -/
theorem C11_schedule_never_rejects (S : Sorter) (s : timer) (now : HighTimePoint)
    (ms : Nat) (rpt : Bool) (f : Nat) :
    output S s (Op.schedule now ms rpt f) = Output.timerID (getId s.id) ∧
    List.Perm (schedule S now ms rpt f s).1.m_timerMap
      (s.m_timerMap ++
        [{ first := (TimePoint.create now f ms rpt s.id).m_timeout, second :=
            TimePoint.create now f ms rpt s.id }]) ∧
    (TimePoint.create now f ms rpt s.id).m_timeout = wrapTicks (now + milliseconds ms) ∧
    (fitsTicks ((ms : Int) * ticksPerMs) → fitsTicks (now + (ms : Int) * ticksPerMs) →
      (TimePoint.create now f ms rpt s.id).m_timeout = now + (ms : Int) * ticksPerMs ∧
      now ≤ (TimePoint.create now f ms rpt s.id).m_timeout) := by
  refine ⟨rfl, ?_, rfl, ?_⟩
  · rw [schedule_map]
    exact S.perm _
  · intro h hsum
    have h1 : (TimePoint.create now f ms rpt s.id).m_timeout =
        wrapTicks (now + milliseconds ms) := rfl
    have h3 : (0 : Int) ≤ (ms : Int) * ticksPerMs := by
      unfold ticksPerMs
      positivity
    rw [h1, milliseconds_of_fits ms h, wrapTicks_of_fits _ hsum]
    exact ⟨rfl, by linarith⟩

/-- C11, on a delay of 50 ms scheduled at clock 7: the deadline is 50 ms later. -/
theorem C11_witness :
    fitsTicks (((50 : Nat) : Int) * ticksPerMs) ∧
    fitsTicks (7 + ((50 : Nat) : Int) * ticksPerMs) ∧
    (schedule insertionSorter 7 50 false 1 timer.init).1.m_timerMap =
      [{ first := 50000007
         second := { m_ms := 50, m_timeout := 50000007, m_func := 1, m_repeat := false,
                     m_tid := 1 } }] ∧
    (TimePoint.create 7 1 50 false timer.init.id).m_timeout = 7 + ((50 : Nat) : Int) * ticksPerMs ∧
    (7 : Int) ≤ (TimePoint.create 7 1 50 false timer.init.id).m_timeout :=
  ⟨by decide, by decide, by decide,
    ((C11_schedule_never_rejects insertionSorter timer.init 7 50 false 1).2.2.2
      (by decide) (by decide)).1,
    ((C11_schedule_never_rejects insertionSorter timer.init 7 50 false 1).2.2.2
      (by decide) (by decide)).2⟩

/-- C11 as stated fails for the delay 9223372036855 ms scheduled at clock 0,
whose tick count `9223372036855 * 10^6` exceeds `2^63 - 1`: `schedule` returns
the id 1 like for any other delay and the deque is no longer empty; the entry
is queued with the deadline -9223372036854551616, before its creation.  It
fails for the delay `2^64 - 1` ms as well: the delay converts to -1 ms and the
entry is queued with a deadline 1 ms before its creation. -/
theorem C11_counterexample :
    ¬ fitsTicks (0 + ((9223372036855 : Nat) : Int) * ticksPerMs) ∧
    output insertionSorter timer.init (Op.schedule 0 9223372036855 false 1) =
      Output.timerID 1 ∧
    timer.init.m_timerMap = [] ∧
    (step insertionSorter timer.init (Op.schedule 0 9223372036855 false 1)).m_timerMap =
      [{ first := -9223372036854551616
         second := { m_ms := 9223372036855, m_timeout := -9223372036854551616, m_func := 1,
                     m_repeat := false, m_tid := 1 } }] ∧
    (-9223372036854551616 : Int) < 0 ∧
    output insertionSorter timer.init (Op.schedule 0 18446744073709551615 false 1) =
      Output.timerID 1 ∧
    (step insertionSorter timer.init (Op.schedule 0 18446744073709551615 false 1)).m_timerMap =
      [{ first := -1000000
         second := { m_ms := 18446744073709551615, m_timeout := -1000000, m_func := 1,
                     m_repeat := false, m_tid := 1 } }] ∧
    (-1000000 : Int) < 0 :=
  ⟨by decide, by decide, by decide, by decide, by decide, by decide, by decide, by decide⟩

/-- C14 (amended): `schedule` sets the new-deadline flag to true exactly when,
after sorting, the front entry carries the id just handed out and the deque
holds more than one entry, and leaves the flag unchanged otherwise, in
particular when the deque was empty.  When no queued entry already carried that
id, the front entry carries it exactly when it is the newly inserted entry.  If
the deque was not empty and the new deadline is strictly earlier than every
queued deadline, the flag is set. -/
theorem C14_new_deadline_flag (S : Sorter) (s : timer) (now : HighTimePoint)
    (ms : Nat) (rpt : Bool) (f : Nat) :
    ∃ pair rest, (schedule S now ms rpt f s).1.m_timerMap = pair :: rest ∧
      (schedule S now ms rpt f s).1.notifyNewTimeout =
        (if pair.second.m_tid = (schedule S now ms rpt f s).2 ∧ rest ≠ [] then true
         else s.notifyNewTimeout) ∧
      (getId s.id ∉ queuedIds s →
        (pair.second.m_tid = (schedule S now ms rpt f s).2 ↔
          pair = { first := (TimePoint.create now f ms rpt s.id).m_timeout
                   second := TimePoint.create now f ms rpt s.id })) ∧
      (s.m_timerMap = [] →
        (schedule S now ms rpt f s).1.notifyNewTimeout = s.notifyNewTimeout) ∧
      (s.m_timerMap ≠ [] →
        (∀ p ∈ s.m_timerMap,
          (TimePoint.create now f ms rpt s.id).m_timeout < p.second.m_timeout) →
        (schedule S now ms rpt f s).1.notifyNewTimeout = true) := by
  obtain ⟨pair, rest, hm, hlen⟩ := schedule_nonempty S now ms rpt f s
  have hn := schedule_notify S now ms rpt f s pair rest hm
  refine ⟨pair, rest, hm, hn, schedule_front_new S now ms rpt f s pair rest hm, ?_, ?_⟩
  · intro hempty
    have hrest : rest = [] := by
      rw [hempty] at hlen
      exact List.length_eq_zero.1 hlen
    rw [hn, if_neg (fun h => h.2 hrest)]
  · intro hne hearly
    have hp := schedule_earliest_front S now ms rpt f s pair rest hm hearly
    have hrest : rest ≠ [] := by
      intro h
      rw [h] at hlen
      exact hne (List.length_eq_zero.1 hlen.symm)
    rw [hn, if_pos ⟨by rw [hp]; rfl, hrest⟩]

/-- C14, on a deque that holds a 10 ms timer: scheduling a 5 ms timer puts the
new entry at the front and sets the flag; scheduling into the empty deque did
not. -/
theorem C14_witness :
    (exec insertionSorter timer.init [Op.schedule 0 10 false 1]).notifyNewTimeout = false ∧
    (exec insertionSorter timer.init [Op.schedule 0 10 false 1]).m_timerMap ≠ [] ∧
    queuedIds (schedule insertionSorter 0 5 false 2
      (exec insertionSorter timer.init [Op.schedule 0 10 false 1])).1 = [2, 1] ∧
    (schedule insertionSorter 0 5 false 2
      (exec insertionSorter timer.init [Op.schedule 0 10 false 1])).1.notifyNewTimeout = true :=
  ⟨by decide, by decide, by decide,
    (C14_new_deadline_flag insertionSorter
      (exec insertionSorter timer.init [Op.schedule 0 10 false 1]) 0 5 false 2).elim
      (fun _ h => h.elim (fun _ h2 => h2.2.2.2.2 (by decide) (by decide)))⟩

/-- C14 as stated fails in the state reached by `wrapAround`, where the timer
scheduled first is queued with id 1 and deadline 0 and the id counter is back
at 0: `schedule` at clock 5 hands out id 1 again, the new entry is sorted behind
the old one, and the flag is set because the front entry carries id 1. -/
theorem C14_counterexample :
    (exec insertionSorter timer.init (wrapAround false)).notifyNewTimeout = false ∧
    (schedule insertionSorter 5 0 false 9
        (exec insertionSorter timer.init (wrapAround false))).1.m_timerMap =
      [{ first := 0
         second := { m_ms := 0, m_timeout := 0, m_func := 7, m_repeat := false, m_tid := 1 } },
       { first := 5
         second := { m_ms := 0, m_timeout := 5, m_func := 9, m_repeat := false, m_tid := 1 } }] ∧
    (schedule insertionSorter 5 0 false 9
        (exec insertionSorter timer.init (wrapAround false))).1.notifyNewTimeout = true := by
  rw [exec_wrapAround]
  exact ⟨by decide, by decide, by decide⟩

/-! ## The marker and the ids that were returned -/

theorem popped_unmarked_fired (S : Sorter) (now : HighTimePoint) (s : timer) (pair : TimerPair)
    (hp : (loopIteration S now s).popped = some pair)
    (hdel : pair.second.m_tid ≠ s.deleteTid) :
    (loopIteration S now s).fired = some pair.second := by
  rcases loopIteration_cases S now s with ⟨e, _⟩ | ⟨p, r, _, _, _, hdel2, e⟩ |
    ⟨p, r, _, _, _, _, _, e⟩ | ⟨p, r, _, _, _, _, _, e⟩
  · rw [e] at hp; exact absurd hp (by simp)
  · rw [e] at hp
    have : p = pair := by simpa using hp
    exact absurd (this ▸ hdel2) hdel
  · rw [e] at hp ⊢
    have : p = pair := by simpa using hp
    rw [this]
  · rw [e] at hp ⊢
    have : p = pair := by simpa using hp
    rw [this]

/-- While `stopTimer` is only called with ids that were returned and the
counter does not wrap, the marker is an issued id (or 0) that is not queued. -/
theorem marker_not_queued (S : Sorter) (ops : List Op) :
    ∀ (s : timer) (returned : List Nat), IdsFresh s → (∀ i ∈ returned, i ≤ s.id) →
      s.deleteTid ≤ s.id → s.deleteTid ∉ queuedIds s →
      s.id + scheduleCalls ops < ULONG_RANGE →
      stopsOnlyReturned S s returned ops = true →
      (exec S s ops).deleteTid ∉ queuedIds (exec S s ops) := by
  induction ops with
  | nil => intro s returned _ _ _ habs _ _; exact habs
  | cons op ops ih =>
    intro s returned hf hret hle habs hb hstop
    rw [scheduleCalls_cons] at hb
    have hb1 : s.id + scheduleCalls [op] < ULONG_RANGE := by omega
    have hid := step_id S s op hb1
    have hf2 := step_idsFresh S s op hf hb1
    have hb2 : (step S s op).id + scheduleCalls ops < ULONG_RANGE := by rw [hid]; omega
    rw [exec_cons]
    cases op with
    | schedule now ms rpt f =>
      rw [scheduleCalls_schedule] at hid hb1
      have hstop2 : stopsOnlyReturned S (step S s (Op.schedule now ms rpt f))
          (returned ++ [getId s.id]) ops = true := hstop
      refine ih _ (returned ++ [getId s.id]) hf2 ?_ ?_ ?_ hb2 hstop2
      · intro i hi
        rw [hid]
        rcases List.mem_append.1 hi with h | h
        · have := hret i h
          omega
        · have : i = getId s.id := by simpa using h
          rw [this, getId_of_lt hb1]
      · show s.deleteTid ≤ (step S s (Op.schedule now ms rpt f)).id
        rw [hid]; omega
      · exact not_mem_queuedIds_step S s (Op.schedule now ms rpt f) _ habs hle
          (by rw [scheduleCalls_schedule]; exact hb1)
    | stopTimer tid =>
      have hstop2 : (decide (tid ∈ returned) && stopsOnlyReturned S (stopTimer tid s)
          returned ops) = true := hstop
      rw [Bool.and_eq_true, decide_eq_true_eq] at hstop2
      refine ih _ returned hf2 hret ?_ ?_ hb2 hstop2.2
      · exact hret tid hstop2.1
      · exact stopTimer_removes tid s hf.1
    | is_running tid => exact ih _ returned hf2 hret hle habs hb2 hstop
    | loopIteration now =>
      have hstop2 : stopsOnlyReturned S (step S s (Op.loopIteration now)) returned ops = true :=
        hstop
      refine ih _ returned hf2 ?_ ?_ ?_ hb2 hstop2
      · intro i hi
        rw [hid]
        have := hret i hi
        omega
      · show (loopIteration S now s).state.deleteTid ≤ (step S s (Op.loopIteration now)).id
        rw [hid, (loopIteration_fields S now s).2.1]; omega
      · show (loopIteration S now s).state.deleteTid ∉ _
        rw [(loopIteration_fields S now s).2.1]
        exact not_mem_queuedIds_step S s (Op.loopIteration now) _ habs hle hb1
    | shutDown => exact ih _ returned hf2 hret hle habs hb2 hstop

/-- The rounds of `churn` stop only the id that was just returned. -/
theorem churn_stopsOnlyReturned (rpt : Bool) (rest : List Op) (n : Nat) :
    ∀ (c d : Nat) (returned : List Nat), 1 ≤ c → c + n ≤ ULONG_RANGE →
      ∃ returned2, stopsOnlyReturned insertionSorter (held rpt c d) returned (churn c n ++ rest) =
        stopsOnlyReturned insertionSorter (exec insertionSorter (held rpt c d) (churn c n))
          returned2 rest := by
  induction n with
  | zero => intro c d returned _ _; exact ⟨returned, rfl⟩
  | succ n ih =>
    intro c d returned h1 h2
    have hround := churn_round rpt c d h1 (by omega)
    have hexec : exec insertionSorter (held rpt c d) (churn c (n + 1)) =
        exec insertionSorter (held rpt (getId c) (getId c)) (churn (getId c) n) := by
      show exec insertionSorter (step insertionSorter (step insertionSorter (held rpt c d)
        (Op.schedule 1 0 false 0)) (Op.stopTimer (getId c))) (churn (getId c) n) = _
      rw [hround]
    have hstep : stopsOnlyReturned insertionSorter (held rpt c d) returned
        (churn c (n + 1) ++ rest) =
        stopsOnlyReturned insertionSorter (held rpt (getId c) (getId c))
          (returned ++ [getId c]) (churn (getId c) n ++ rest) := by
      show (decide (getId c ∈ returned ++ [getId c]) &&
        stopsOnlyReturned insertionSorter (step insertionSorter (step insertionSorter
          (held rpt c d) (Op.schedule 1 0 false 0)) (Op.stopTimer (getId c)))
          (returned ++ [getId c]) (churn (getId c) n ++ rest)) = _
      rw [hround]
      simp
    rw [hexec, hstep]
    cases n with
    | zero => exact ⟨returned ++ [getId c], rfl⟩
    | succ m =>
      have hc : getId c = c + 1 := getId_of_lt (by omega)
      rw [hc]
      exact ih (c + 1) (c + 1) (returned ++ [c + 1]) (by omega) (by omega)

theorem wrapAround_stopsOnlyReturned (rpt : Bool) (rest : List Op) :
    ∃ returned, stopsOnlyReturned insertionSorter timer.init [] (wrapAround rpt ++ rest) =
      stopsOnlyReturned insertionSorter (held rpt 0 0) returned rest := by
  have h0 : (schedule insertionSorter 0 0 rpt 7 timer.init).1 = held rpt 1 0 := by
    simp [schedule, timer.init, held, insertionSorter, insertionSort, insertByTimeout,
      TimePoint.create, milliseconds_zero, wrapTicks_zero, wrapTicks_one, getId, ULONG_RANGE]
  have hn : ULONG_RANGE - 1 = (ULONG_RANGE - 2) + 1 := by decide
  have hm : (1 + (ULONG_RANGE - 2 + 1)) % ULONG_RANGE = 0 := by decide
  have hb : 1 + (ULONG_RANGE - 2 + 1) ≤ ULONG_RANGE := by decide
  have hfirst : stopsOnlyReturned insertionSorter timer.init [] (wrapAround rpt ++ rest) =
      stopsOnlyReturned insertionSorter (held rpt 1 0)
        ([] ++ [(schedule insertionSorter 0 0 rpt 7 timer.init).2])
        (churn 1 (ULONG_RANGE - 1) ++ rest) := by
    unfold wrapAround
    rw [List.cons_append, ← h0]
    rfl
  obtain ⟨returned, hr⟩ := churn_stopsOnlyReturned rpt rest (ULONG_RANGE - 2 + 1) 1 0
    ([] ++ [(schedule insertionSorter 0 0 rpt 7 timer.init).2]) (le_refl 1) hb
  rw [exec_churn rpt (ULONG_RANGE - 2) 1 0 (le_refl 1) hb, hm] at hr
  rw [hn] at hfirst
  exact ⟨returned, hfirst.trans hr⟩

/-- C16 (amended): if `stopTimer` is only ever called with ids that `schedule`
has already returned, and `schedule` is called fewer than `2^64` times, then in
every reachable state no queued entry has the id of the cancellation marker, so
every entry a loop turn pops is dispatched: the marker branch is not taken. -/
theorem C16_marker_branch_dead (S : Sorter) (ops : List Op)
    (hwrap : scheduleCalls ops < ULONG_RANGE)
    (hstops : stopsOnlyReturned S timer.init [] ops = true) :
    (∀ p ∈ (exec S timer.init ops).m_timerMap,
      p.second.m_tid ≠ (exec S timer.init ops).deleteTid) ∧
    (∀ now pair, (loopIteration S now (exec S timer.init ops)).popped = some pair →
      (loopIteration S now (exec S timer.init ops)).fired = some pair.second) := by
  have h := marker_not_queued S ops timer.init [] init_idsFresh
    (fun i hi => absurd hi (List.not_mem_nil i)) (le_refl _)
    (fun hmem => absurd hmem (List.not_mem_nil _))
    (by show 0 + scheduleCalls ops < ULONG_RANGE; omega) hstops
  have hq : ∀ p ∈ (exec S timer.init ops).m_timerMap,
      p.second.m_tid ≠ (exec S timer.init ops).deleteTid := by
    intro p hp heq
    exact h (heq ▸ mem_queuedIds_of_mem hp)
  refine ⟨hq, ?_⟩
  intro now pair hp
  obtain ⟨rest, hm, _, _⟩ := popped_is_front S now _ pair hp
  exact popped_unmarked_fired S now _ pair hp
    (hq pair (by rw [hm]; exact List.mem_cons_self _ _))

/-- C16, on a trace that stops a timer after it was returned and pops another:
the popped entry is dispatched. -/
theorem C16_witness :
    scheduleCalls [Op.schedule 0 5 false 1, Op.schedule 0 9 true 2, Op.stopTimer 1]
      < ULONG_RANGE ∧
    stopsOnlyReturned insertionSorter timer.init []
      [Op.schedule 0 5 false 1, Op.schedule 0 9 true 2, Op.stopTimer 1] = true ∧
    (exec insertionSorter timer.init
      [Op.schedule 0 5 false 1, Op.schedule 0 9 true 2, Op.stopTimer 1]).deleteTid = 1 ∧
    queuedIds (exec insertionSorter timer.init
      [Op.schedule 0 5 false 1, Op.schedule 0 9 true 2, Op.stopTimer 1]) = [2] ∧
    (loopIteration insertionSorter 9000001 (exec insertionSorter timer.init
      [Op.schedule 0 5 false 1, Op.schedule 0 9 true 2, Op.stopTimer 1])).fired =
      some { m_ms := 9, m_timeout := 9000000, m_func := 2, m_repeat := true, m_tid := 2 } :=
  ⟨by decide, by decide, by decide, by decide,
    (C16_marker_branch_dead insertionSorter
      [Op.schedule 0 5 false 1, Op.schedule 0 9 true 2, Op.stopTimer 1]
      (by decide) (by decide)).2 9000001
      { first := 9000000
        second := { m_ms := 9, m_timeout := 9000000, m_func := 2, m_repeat := true, m_tid := 2 } }
      (by decide)⟩

/-- C16 as stated fails on the trace `wrapAround`, `schedule` at clock 5,
`stopTimer(1)`: every `stopTimer` call passes an id returned before, the two
entries queued before the last call both have id 1, `stopTimer(1)` erases the
first of them and makes 1 the marker, and the turn at clock 6 pops the other
one and drops it without dispatching it. -/
theorem C16_counterexample :
    stopsOnlyReturned insertionSorter timer.init []
      (wrapAround false ++ [Op.schedule 5 0 false 9, Op.stopTimer 1]) = true ∧
    (exec insertionSorter timer.init
      (wrapAround false ++ [Op.schedule 5 0 false 9, Op.stopTimer 1])).deleteTid = 1 ∧
    queuedIds (exec insertionSorter timer.init
      (wrapAround false ++ [Op.schedule 5 0 false 9, Op.stopTimer 1])) = [1] ∧
    (loopIteration insertionSorter 6 (exec insertionSorter timer.init
      (wrapAround false ++ [Op.schedule 5 0 false 9, Op.stopTimer 1]))).popped =
      some { first := 5
             second := { m_ms := 0, m_timeout := 5, m_func := 9, m_repeat := false, m_tid := 1 } } ∧
    (loopIteration insertionSorter 6 (exec insertionSorter timer.init
      (wrapAround false ++ [Op.schedule 5 0 false 9, Op.stopTimer 1]))).fired = none := by
  obtain ⟨returned, hr⟩ := wrapAround_stopsOnlyReturned false
    [Op.schedule 5 0 false 9, Op.stopTimer 1]
  have hlast : stopsOnlyReturned insertionSorter (held false 0 0) returned
      [Op.schedule 5 0 false 9, Op.stopTimer 1] = true := by
    show (decide (1 ∈ returned ++ [1]) && true) = true
    simp
  rw [hr, hlast, exec_append, exec_wrapAround]
  exact ⟨rfl, by decide, by decide, by decide, by decide⟩

/-! ## Repeating entries with delay 0 -/

theorem next_of_zero (t : TimePoint) (h : t.m_ms = 0) (hf : fitsTicks t.m_timeout) :
    t.next = t := by
  cases t with
  | mk ms timeout func rpt tid =>
    simp only at h hf
    subst h
    simp only [TimePoint.next, milliseconds_zero, add_zero, wrapTicks_of_fits timeout hf]

theorem loopIteration_popped (S : Sorter) (now : HighTimePoint) (s : timer)
    (pair : TimerPair) (rest : List TimerPair) (hm : s.m_timerMap = pair :: rest)
    (hd : s.done = false) (hdue : pair.second.m_timeout < now) :
    (loopIteration S now s).popped = some pair := by
  rcases loopIteration_cases S now s with ⟨_, c⟩ | ⟨p, r, hm2, _, _, _, e⟩ |
    ⟨p, r, hm2, _, _, _, _, e⟩ | ⟨p, r, hm2, _, _, _, _, e⟩
  · rcases c with c | c | ⟨p, r, hm2, hnd⟩
    · rw [hd] at c; exact absurd c (by simp)
    · rw [hm] at c; exact absurd c (by simp)
    · rw [hm] at hm2
      have hp : pair = p := (List.cons.inj hm2).1
      exact absurd (hp ▸ hdue) hnd
  all_goals
    rw [hm] at hm2
    have hp : pair = p := (List.cons.inj hm2).1
    rw [e, hp]

/-- A repeating entry with delay 0 that is the only one with the earliest
deadline is dispatched by every turn that reads a later clock value. -/
theorem zero_delay_refires (S : Sorter) (entry : TimePoint) (hr : entry.m_repeat = true)
    (hz : entry.m_ms = 0) (hfit : fitsTicks entry.m_timeout) (nows : List HighTimePoint) :
    ∀ s : timer, s.done = false → entry.m_tid ≠ s.deleteTid →
      SortedByTimeout s.m_timerMap →
      (∃ q ∈ s.m_timerMap, q.second = entry) →
      (∀ q ∈ s.m_timerMap, q.second = entry ∨ entry.m_timeout < q.second.m_timeout) →
      (∀ now ∈ nows, entry.m_timeout < now) →
      outputs S s (nows.map Op.loopIteration) = nows.map (fun _ => Output.fired entry) := by
  induction nows with
  | nil => intro s _ _ _ _ _ _; rfl
  | cons now nows ih =>
    intro s hd hdel hs hex hall hnows
    obtain ⟨q0, hq0, hq0e⟩ := hex
    cases hm : s.m_timerMap with
    | nil => rw [hm] at hq0; exact absurd hq0 (List.not_mem_nil q0)
    | cons pair rest =>
      have hpm : pair ∈ s.m_timerMap := by rw [hm]; exact List.mem_cons_self _ _
      have hpe : pair.second = entry := by
        rcases hall pair hpm with h | h
        · exact h
        · have h2 := sorted_head_le (hm ▸ hs) q0 (hm ▸ hq0)
          rw [hq0e] at h2
          exact absurd h (not_lt.2 h2)
      have hdue : pair.second.m_timeout < now := by
        rw [hpe]; exact hnows now (List.mem_cons_self _ _)
      have hp := loopIteration_popped S now s pair rest hm hd hdue
      obtain ⟨rest2, hm2, hfired, _, hmap⟩ :=
        loopIteration_repeat S now s pair hp (by rw [hpe]; exact hdel) (by rw [hpe]; exact hr)
      have hrest : rest2 = rest := by
        rw [hm] at hm2
        exact ((List.cons.inj hm2).2).symm
      rw [hpe, next_of_zero entry hz hfit, hrest] at hmap
      rw [hpe] at hfired
      have ho : output S s (Op.loopIteration now) = Output.fired entry := by
        simp only [output, hfired]
      have hfields := loopIteration_fields S now s
      rw [List.map_cons, List.map_cons, outputs_cons, ho]
      congr 1
      apply ih (step S s (Op.loopIteration now))
      · exact hfields.2.2.trans hd
      · show entry.m_tid ≠ (loopIteration S now s).state.deleteTid
        rw [hfields.2.1]; exact hdel
      · exact loopIteration_sorted S now s hs
      · refine ⟨{ first := entry.m_timeout, second := entry }, ?_, rfl⟩
        show _ ∈ (loopIteration S now s).state.m_timerMap
        rw [hmap]
        exact (S.perm _).symm.subset (List.mem_append_right _ (List.mem_singleton_self _))
      · intro q hq
        have hq2 : q ∈ (loopIteration S now s).state.m_timerMap := hq
        rw [hmap] at hq2
        rcases List.mem_append.1 ((S.perm _).subset hq2) with h | h
        · exact hall q (by rw [hm]; exact List.mem_cons_of_mem _ h)
        · left
          have : q = { first := entry.m_timeout, second := entry } := by simpa using h
          rw [this]
      · exact fun n hn => hnows n (List.mem_cons_of_mem _ hn)

/-- C17 (amended): in every reachable state, re-arming a queued entry strictly
increases its deadline only when its interval, the delay it was scheduled
with, is positive; with delay 0 `next()` leaves the entry as it is, so a
repeating entry with delay 0 is queued again with the same deadline.  While an
entry is queued, no entry with a strictly later deadline is popped.  If a
repeating entry with delay 0 is queued, every other queued entry has a strictly
later deadline, the loop has not been shut down and the id of the entry is not
the marker, then every loop turn that reads a clock value past its deadline
pops and dispatches that same entry again. -/
theorem C17_zero_delay (S : Sorter) (ops : List Op) :
    (∀ p ∈ (exec S timer.init ops).m_timerMap,
      p.second.m_timeout < p.second.next.m_timeout → 0 < p.second.m_ms) ∧
    (∀ p ∈ (exec S timer.init ops).m_timerMap,
      p.second.m_ms = 0 → p.second.next = p.second) ∧
    (∀ (now : HighTimePoint) (pair q : TimerPair),
      (loopIteration S now (exec S timer.init ops)).popped = some pair →
      q ∈ (exec S timer.init ops).m_timerMap →
      pair.second.m_timeout ≤ q.second.m_timeout) ∧
    (∀ (entry : TimePoint) (nows : List HighTimePoint),
      entry.m_repeat = true → entry.m_ms = 0 →
      (exec S timer.init ops).done = false → entry.m_tid ≠ (exec S timer.init ops).deleteTid →
      (∃ q ∈ (exec S timer.init ops).m_timerMap, q.second = entry) →
      (∀ q ∈ (exec S timer.init ops).m_timerMap,
        q.second = entry ∨ entry.m_timeout < q.second.m_timeout) →
      (∀ now ∈ nows, entry.m_timeout < now) →
      outputs S (exec S timer.init ops) (nows.map Op.loopIteration) =
        nows.map (fun _ => Output.fired entry)) := by
  have hs := exec_sorted S timer.init ops init_sorted
  have hfits := reachable_fits S ops
  have hzero : ∀ p ∈ (exec S timer.init ops).m_timerMap,
      p.second.m_ms = 0 → p.second.next = p.second :=
    fun p hp h0 => next_of_zero p.second h0 (hfits p hp)
  refine ⟨?_, hzero, ?_, ?_⟩
  · intro p hp hlt
    rcases Nat.eq_zero_or_pos p.second.m_ms with h0 | h0
    · rw [hzero p hp h0] at hlt
      exact absurd hlt (lt_irrefl _)
    · exact h0
  · intro now pair q hp hq
    obtain ⟨rest, hm, _, _⟩ := popped_is_front S now _ pair hp
    rw [hm] at hs hq
    exact sorted_head_le hs q hq
  · intro entry nows hr hz hd hdel hex hall hnows
    have hfit : fitsTicks entry.m_timeout := by
      obtain ⟨q, hq, hqe⟩ := hex
      rw [← hqe]
      exact hfits q hq
    exact zero_delay_refires S entry hr hz hfit nows _ hd hdel hs hex hall hnows

/-- C17, on a repeating timer with delay 0 queued before a timer of 1 ms: three
turns in a row dispatch the same entry and the other timer, long due, is never
popped. -/
theorem C17_witness :
    (exec insertionSorter timer.init
      [Op.schedule 0 1 false 1, Op.schedule 5 0 true 2]).m_timerMap =
      [{ first := 5
         second := { m_ms := 0, m_timeout := 5, m_func := 2, m_repeat := true, m_tid := 2 } },
       { first := 1000000
         second := { m_ms := 1, m_timeout := 1000000, m_func := 1, m_repeat := false,
                     m_tid := 1 } }] ∧
    outputs insertionSorter
      (exec insertionSorter timer.init [Op.schedule 0 1 false 1, Op.schedule 5 0 true 2])
      ([2000000, 3000000, 4000000].map Op.loopIteration) =
      [2000000, 3000000, 4000000].map (fun _ =>
        Output.fired { m_ms := 0, m_timeout := 5, m_func := 2, m_repeat := true, m_tid := 2 }) :=
  ⟨by decide,
    (C17_zero_delay insertionSorter [Op.schedule 0 1 false 1, Op.schedule 5 0 true 2]).2.2.2
      { m_ms := 0, m_timeout := 5, m_func := 2, m_repeat := true, m_tid := 2 }
      [2000000, 3000000, 4000000] rfl rfl (by decide) (by decide)
      (by decide) (by decide) (by decide)⟩

/-- C17 as stated fails when another entry has the same deadline: a repeating
timer and a one-shot timer, both with delay 0, are scheduled at clock 0.  The
turn at clock 1 dispatches the repeating one and pushes it back behind the
other; the turn after dispatches the one-shot timer, not the same entry
again.  It also fails when the id of the entry is the marker: after
`stopTimer(1)` the repeating timer scheduled with delay 0 gets id 1, and the
turn that finds it due drops it instead of dispatching it. -/
theorem C17_counterexample :
    outputs insertionSorter timer.init
      [Op.schedule 0 0 true 1, Op.schedule 0 0 false 2,
       Op.loopIteration 1, Op.loopIteration 2, Op.loopIteration 3] =
      [Output.timerID 1, Output.timerID 2,
       Output.fired { m_ms := 0, m_timeout := 0, m_func := 1, m_repeat := true, m_tid := 1 },
       Output.fired { m_ms := 0, m_timeout := 0, m_func := 2, m_repeat := false, m_tid := 2 },
       Output.fired { m_ms := 0, m_timeout := 0, m_func := 1, m_repeat := true, m_tid := 1 }] ∧
    outputs insertionSorter timer.init
      [Op.stopTimer 1, Op.schedule 0 0 true 7, Op.loopIteration 1, Op.loopIteration 2] =
      [Output.silent, Output.timerID 1, Output.silent, Output.silent] :=
  ⟨by decide, by decide⟩

end timer_service
